import Mathlib

/-!
# LC-3 simulator (`c_implementation/src/main.c`): shallow embedding

C values are modelled by mathematical integers:

* `Word` (`short`) is an `Int` in `[-32768, 32767]`; a conversion to `Word`
  is `toWord` (reduction modulo `2^16` into the signed range, as gcc does);
* `Address` (`unsigned short`) is an `Int` in `[0, 65535]`; a conversion to
  `Address` is `toAddress`;
* `int` is an `Int`; the bitwise operators on `int` go through the 32-bit
  two's-complement pattern (`toU32` / `ofU32`).

An index into `mem` that leaves `0 .. MEMLEN-1` is undefined behaviour in C;
the embedding makes every memory access explicit and returns `none` there.
Console output (`printf`) is not part of the state and is left out; a memory
read made only for a trace is kept where its index can differ from the
handler's own (`instr_LDR`).
-/

namespace LC3

/-! ## Machine integers -/

/-- The 32-bit pattern of a C `int`, as a natural number below `2^32`. -/
def toU32 (x : Int) : Nat := (x % 4294967296).toNat

/-- The C `int` whose 32-bit two's-complement pattern is `n`. -/
def ofU32 (n : Nat) : Int :=
  if n % 4294967296 < 2147483648 then ((n % 4294967296 : Nat) : Int)
  else ((n % 4294967296 : Nat) : Int) - 4294967296

/-- Conversion of an `int` to `Word` (`short`): the low 16 bits, signed. -/
def toWord (x : Int) : Int := (x + 32768) % 65536 - 32768

/-- Conversion of an `int` to `Address` (`unsigned short`): the low 16 bits. -/
def toAddress (x : Int) : Int := x % 65536

/-- The operator `a & b` on `int`. -/
def int_and (a b : Int) : Int := ofU32 (Nat.land (toU32 a) (toU32 b))

/-- The operator `~a` on `int`: every one of the 32 bits flipped. -/
def int_not (a : Int) : Int := ofU32 (4294967295 - toU32 a)

/-- The operator `a << n` on `int`, for a shift that does not overflow. -/
def int_shl (a : Int) (n : Int) : Int := a * ((2 ^ n.toNat : Nat) : Int)

/-- The operator `a >> n` on `int` (arithmetic shift). -/
def int_shr (a : Int) (n : Nat) : Int := a / ((2 ^ n : Nat) : Int)

/-- The operator `a - b` on `unsigned`. -/
def unsigned_sub (a b : Nat) : Nat := (a % 4294967296 + 4294967296 - b % 4294967296) % 4294967296

/-- The operator `a + b` on `unsigned`. -/
def unsigned_add (a b : Nat) : Nat := (a + b) % 4294967296

/-! ## Bit-field extraction (`bit_select_us`, `bit_select_s`) -/

/-- Source `bit_select_us(Word value, unsigned left, unsigned right)`:
`number_of_ones = (left - right) + 1`,
`mask = ((1 << number_of_ones) - 1) << right`,
`actual_value = (value & mask) >> right`, returned as a `Word`. -/
def bit_select_us (value : Int) (left right : Nat) : Int :=
  let number_of_ones : Int := ofU32 (unsigned_add (unsigned_sub left right) 1)
  let mask : Int := int_shl (int_shl 1 number_of_ones - 1) right
  let actual_value : Int := int_shr (int_and value mask) right
  toWord actual_value

/-- Source `bit_select_s(Word value, unsigned left, unsigned right)`: when
`value & (1 << abs(right - left))` is non-zero the result is
`-bit_select_us(~value + 1, left, right)`, otherwise
`bit_select_us(value, left, right)`.  The argument `~value + 1` is converted
to the `Word` parameter and the result to the `Word` return type. -/
def bit_select_s (value : Int) (left right : Nat) : Int :=
  if int_and value (int_shl 1 ((ofU32 (unsigned_sub right left)).natAbs : Int)) ≠ 0 then
    toWord (-(bit_select_us (toWord (int_not value + 1)) left right))
  else
    bit_select_us value left right

/-! ## Machine state -/

/-- Source `MEMLEN`: the number of memory cells. -/
def MEMLEN : Int := 65536

/-- Source `NREG`: the number of registers. -/
def NREG : Int := 8

/-- Source `struct CPU`.  `mem` and `reg` are the arrays `Word mem[MEMLEN]`
and `Word reg[NREG]`, given by their contents at each index; `pc` is an
`Address`, `running` a C `int` (non-zero iff the CPU executes instructions),
`ir` a `Word` and `cc` the condition code character. -/
structure CPU where
  mem : Int → Int
  reg : Int → Int
  pc : Int
  running : Int
  ir : Int
  cc : Char

/-- The read `cpu->mem[i]` with an `int` index: defined only inside the array. -/
def mem_read (cpu : CPU) (i : Int) : Option Int :=
  if 0 ≤ i ∧ i < MEMLEN then some (cpu.mem i) else none

/-- The assignment `cpu->mem[i] = v` with an `int` index: defined only inside
the array. -/
def mem_write (cpu : CPU) (i : Int) (v : Int) : Option CPU :=
  if 0 ≤ i ∧ i < MEMLEN then
    some { cpu with mem := fun j => if j = i then v else cpu.mem j }
  else none

/-- The assignment `cpu->reg[i] = v`.  Every index the instruction handlers
use is a 3-bit field of the instruction or the constant 7 or 0. -/
def reg_write (cpu : CPU) (i : Int) (v : Int) : CPU :=
  { cpu with reg := fun j => if j = i then v else cpu.reg j }

/-- Source `update_condition_code`. -/
def update_condition_code (cpu : CPU) (value : Int) : CPU :=
  if value < 0 then { cpu with cc := 'N' }
  else if value = 0 then { cpu with cc := 'Z' }
  else { cpu with cc := 'P' }

/-- Source `get_condition_num`. -/
def get_condition_num (cpu : CPU) : Int :=
  if cpu.cc = 'N' then 1
  else if cpu.cc = 'Z' then 2
  else if cpu.cc = 'P' then 4
  else 0

/-! ## Instruction handlers -/

/-- Source `instr_ADD`. -/
def instr_ADD (cpu : CPU) : CPU :=
  let type := bit_select_us cpu.ir 5 5
  let dr := bit_select_us cpu.ir 11 9
  let src1 := bit_select_us cpu.ir 8 6
  let cpu1 :=
    if type = 0 then
      let src2 := bit_select_us cpu.ir 2 0
      reg_write cpu dr (toWord (cpu.reg src1 + cpu.reg src2))
    else
      let imm5 := bit_select_s cpu.ir 4 0
      reg_write cpu dr (toWord (cpu.reg src1 + imm5))
  update_condition_code cpu1 (cpu1.reg dr)

/-- Source `instr_AND`. -/
def instr_AND (cpu : CPU) : CPU :=
  let type := bit_select_us cpu.ir 5 5
  let dr := bit_select_us cpu.ir 11 9
  let src1 := bit_select_us cpu.ir 8 6
  let cpu1 :=
    if type = 0 then
      let src2 := bit_select_us cpu.ir 2 0
      reg_write cpu dr (toWord (int_and (cpu.reg src1) (cpu.reg src2)))
    else
      let imm5 := bit_select_s cpu.ir 4 0
      reg_write cpu dr (toWord (int_and (cpu.reg src1) imm5))
  update_condition_code cpu1 (cpu1.reg dr)

/-- Source `instr_BR`: `cpu->pc += pcoffset` when
`(branch_type & get_condition_num(cpu)) != 0`. -/
def instr_BR (cpu : CPU) : CPU :=
  let branch_type := bit_select_us cpu.ir 11 9
  let pcoffset := bit_select_s cpu.ir 8 0
  if int_and branch_type (get_condition_num cpu) ≠ 0 then
    { cpu with pc := toAddress (cpu.pc + pcoffset) }
  else cpu

/-- Source `instr_err`: prints only. -/
def instr_err (cpu : CPU) : CPU := cpu

/-- Source `instr_JMP`. -/
def instr_JMP (cpu : CPU) : CPU :=
  let base := bit_select_us cpu.ir 8 6
  { cpu with pc := toAddress (cpu.reg base) }

/-- Source `instr_JSR`: `cpu->reg[7] = cpu->pc` first, then the jump. -/
def instr_JSR (cpu : CPU) : CPU :=
  let mode := bit_select_us cpu.ir 11 11
  let cpu1 := reg_write cpu 7 (toWord cpu.pc)
  if mode = 1 then
    let pcoffset := bit_select_s cpu1.ir 10 0
    { cpu1 with pc := toAddress (cpu1.pc + pcoffset) }
  else
    let regNum := bit_select_us cpu1.ir 8 6
    { cpu1 with pc := toAddress (cpu1.reg regNum) }

/-- Source `instr_LD`: `cpu->reg[dr] = cpu->mem[cpu->pc + pcoffset]`.  The
trace reads the same cell again (`pc` is unchanged). -/
def instr_LD (cpu : CPU) : Option CPU :=
  let dr := bit_select_us cpu.ir 11 9
  let pcoffset := bit_select_s cpu.ir 8 0
  match mem_read cpu (cpu.pc + pcoffset) with
  | none => none
  | some v =>
    let cpu1 := reg_write cpu dr v
    some (update_condition_code cpu1 (cpu1.reg dr))

/-- Source `instr_LDI`: `cpu->reg[dr] = cpu->mem[cpu->mem[pcoffset + cpu->pc]]`.
The trace reads the same two cells again (`pc` and memory are unchanged). -/
def instr_LDI (cpu : CPU) : Option CPU :=
  let dr := bit_select_us cpu.ir 11 9
  let pcoffset := bit_select_s cpu.ir 8 0
  match mem_read cpu (pcoffset + cpu.pc) with
  | none => none
  | some p =>
    match mem_read cpu p with
    | none => none
    | some v =>
      let cpu1 := reg_write cpu dr v
      some (update_condition_code cpu1 (cpu1.reg dr))

/-- Source `instr_LDR`: `cpu->reg[dr] = cpu->mem[cpu->reg[base] + offset]`,
then the trace, whose last argument reads `cpu->mem[cpu->reg[base] + offset]`
again, after the write to `reg[dr]`: when `dr` is `base` the second index is
the loaded value plus `offset`.  Then `update_condition_code`. -/
def instr_LDR (cpu : CPU) : Option CPU :=
  let dr := bit_select_us cpu.ir 11 9
  let base := bit_select_us cpu.ir 8 6
  let offset := bit_select_s cpu.ir 5 0
  match mem_read cpu (cpu.reg base + offset) with
  | none => none
  | some v =>
    let cpu1 := reg_write cpu dr v
    match mem_read cpu1 (cpu1.reg base + offset) with
    | none => none
    | some _ => some (update_condition_code cpu1 (cpu1.reg dr))

/-- Source `instr_LEA`. -/
def instr_LEA (cpu : CPU) : CPU :=
  let dr := bit_select_us cpu.ir 11 9
  let pcoffset := bit_select_s cpu.ir 8 0
  let cpu1 := reg_write cpu dr (toWord (cpu.pc + pcoffset))
  update_condition_code cpu1 (cpu1.reg dr)

/-- Source `instr_NOT`. -/
def instr_NOT (cpu : CPU) : CPU :=
  let dr := bit_select_us cpu.ir 11 9
  let src := bit_select_us cpu.ir 8 6
  let cpu1 := reg_write cpu dr (toWord (int_not (cpu.reg src)))
  update_condition_code cpu1 (cpu1.reg dr)

/-- Source `instr_RTI`: prints only. -/
def instr_RTI (cpu : CPU) : CPU := cpu

/-- Source `instr_ST`: `cpu->mem[cpu->pc + pcoffset] = cpu->reg[src]`. -/
def instr_ST (cpu : CPU) : Option CPU :=
  let src := bit_select_us cpu.ir 11 9
  let pcoffset := bit_select_s cpu.ir 8 0
  mem_write cpu (cpu.pc + pcoffset) (cpu.reg src)

/-- Source `instr_STI`: `cpu->mem[cpu->mem[pcoffset + cpu->pc]] = cpu->reg[src]`. -/
def instr_STI (cpu : CPU) : Option CPU :=
  let src := bit_select_us cpu.ir 11 9
  let pcoffset := bit_select_s cpu.ir 8 0
  match mem_read cpu (pcoffset + cpu.pc) with
  | none => none
  | some p => mem_write cpu p (cpu.reg src)

/-- Source `instr_STR`: `cpu->mem[base + offset] = cpu->reg[dr]`, where `base`
is the 3-bit field itself. -/
def instr_STR (cpu : CPU) : Option CPU :=
  let dr := bit_select_us cpu.ir 11 9
  let base := bit_select_us cpu.ir 8 6
  let offset := bit_select_s cpu.ir 5 0
  mem_write cpu (base + offset) (cpu.reg dr)

/-! ## Traps

The console input is the list of characters (as C `char` values) that
`scanf` has not consumed yet. -/

/-- Source `trap_getchar`: `scanf("%c", &input); cpu->reg[0] = input`.  With
no character left `input` is never assigned and the value stored is
indeterminate: no result. -/
def trap_getchar (cpu : CPU) (stdin : List Int) : Option (CPU × List Int) :=
  match stdin with
  | [] => none
  | input :: rest => some (reg_write cpu 0 (toWord input), rest)

/-- Source `trap_out`: prints only. -/
def trap_out (cpu : CPU) : CPU := cpu

/-- The loop of `trap_puts`: `while (cpu->mem[current_loc]) printf(...,
cpu->mem[current_loc++])` with `Word current_loc`; `some ()` when the loop
stops at a zero cell, `none` when it indexes outside the array.  The fuel
bounds the number of cells visited. -/
def trap_puts_loop (cpu : CPU) : Nat → Int → Option Unit
  | 0, _ => none
  | fuel + 1, current_loc =>
    match mem_read cpu current_loc with
    | none => none
    | some v => if v = 0 then some () else trap_puts_loop cpu fuel (toWord (current_loc + 1))

/-- Source `trap_puts`: reads memory from `cpu->reg[0]` on and prints; a
`Word` index visits at most 32768 cells before it turns negative. -/
def trap_puts (cpu : CPU) : Option CPU :=
  match trap_puts_loop cpu 32769 (cpu.reg 0) with
  | none => none
  | some _ => some cpu

/-- Source `trap_input`: a prompt, then `trap_getchar`. -/
def trap_input (cpu : CPU) (stdin : List Int) : Option (CPU × List Int) :=
  trap_getchar cpu stdin

/-- Source `trap_halt`. -/
def trap_halt (cpu : CPU) : CPU :=
  { cpu with cc := 'P', running := 0 }

/-- Source `instr_TRAP`. -/
def instr_TRAP (cpu : CPU) (stdin : List Int) : Option (CPU × List Int) :=
  let trap_vector := bit_select_us cpu.ir 7 0
  if trap_vector = 0x20 then trap_getchar cpu stdin
  else if trap_vector = 0x21 then some (trap_out cpu, stdin)
  else if trap_vector = 0x22 then (trap_puts cpu).map fun c => (c, stdin)
  else if trap_vector = 0x23 then trap_input cpu stdin
  else if trap_vector = 0x25 then some (trap_halt cpu, stdin)
  else some ({ cpu with running := 0 }, stdin)

/-! ## The instruction cycle -/

/-- The `switch (op_code)` of `one_instruction_cycle`. -/
def dispatch (op_code : Int) (cpu : CPU) (stdin : List Int) : Option (CPU × List Int) :=
  if op_code = 0 then some (instr_BR cpu, stdin)
  else if op_code = 1 then some (instr_ADD cpu, stdin)
  else if op_code = 2 then (instr_LD cpu).map fun c => (c, stdin)
  else if op_code = 3 then (instr_ST cpu).map fun c => (c, stdin)
  else if op_code = 4 then some (instr_JSR cpu, stdin)
  else if op_code = 5 then some (instr_AND cpu, stdin)
  else if op_code = 6 then (instr_LDR cpu).map fun c => (c, stdin)
  else if op_code = 7 then (instr_STR cpu).map fun c => (c, stdin)
  else if op_code = 8 then some (instr_RTI cpu, stdin)
  else if op_code = 9 then some (instr_NOT cpu, stdin)
  else if op_code = 10 then (instr_LDI cpu).map fun c => (c, stdin)
  else if op_code = 11 then (instr_STI cpu).map fun c => (c, stdin)
  else if op_code = 12 then some (instr_JMP cpu, stdin)
  else if op_code = 13 then some (instr_err cpu, stdin)
  else if op_code = 14 then some (instr_LEA cpu, stdin)
  else if op_code = 15 then instr_TRAP cpu stdin
  else some (cpu, stdin)

/-- Source `one_instruction_cycle`: nothing when the CPU is not running;
otherwise `if (cpu->pc > 0xffff) cpu->pc = 0`, the fetch
`cpu->ir = cpu->mem[cpu->pc++]`, and the dispatch on
`bit_select_us(cpu->ir, 15, 12)`. -/
def one_instruction_cycle (cpu : CPU) (stdin : List Int) : Option (CPU × List Int) :=
  if cpu.running = 0 then some (cpu, stdin)
  else
    let cpu0 := if cpu.pc > 0xffff then { cpu with pc := 0 } else cpu
    match mem_read cpu0 cpu0.pc with
    | none => none
    | some w =>
      let cpu1 := { cpu0 with ir := w, pc := toAddress (cpu0.pc + 1) }
      let op_code := bit_select_us cpu1.ir 15 12
      dispatch op_code cpu1 stdin

/-- The `while (cpu->running && cycles_ran < nbr_cycles)` loop of
`many_instruction_cycles`, by the number of cycles still allowed. -/
def many_loop : Nat → CPU → List Int → Option (CPU × List Int)
  | 0, cpu, stdin => some (cpu, stdin)
  | left + 1, cpu, stdin =>
    if cpu.running = 0 then some (cpu, stdin)
    else
      match one_instruction_cycle cpu stdin with
      | none => none
      | some (cpu1, stdin1) => many_loop left cpu1 stdin1

/-- Source `many_instruction_cycles`. -/
def many_instruction_cycles (nbr_cycles : Int) (cpu : CPU) (stdin : List Int) :
    Option (CPU × List Int) :=
  if cpu.running = 0 then some (cpu, stdin)
  else
    let nbr_cycles := if nbr_cycles > 100 then 100 else nbr_cycles
    many_loop nbr_cycles.toNat cpu stdin

/-! ## Loading

A data file is the list of its lines; a line is `some v` when `sscanf` reads
the hexadecimal `unsigned short` value `v` from it, and `none` when it reads
no value. -/

/-- Source `fetch_instruction`: `none` at the end of the file (return value
0); otherwise the line read, as a `Word` when a value was assigned
(`param_assigned = 1`), and the rest of the file. -/
def fetch_instruction (datafile : List (Option Int)) :
    Option (Option Int × List (Option Int)) :=
  match datafile with
  | [] => none
  | line :: rest => some (line.map toWord, rest)

/-- Source `initialize_control_unit`: `none` is `exit(EXIT_FAILURE)`. -/
def initialize_control_unit (cpu : CPU) (datafile : List (Option Int)) :
    Option (CPU × List (Option Int)) :=
  match fetch_instruction datafile with
  | some (some origin, rest) =>
    some ({ cpu with pc := toAddress origin, ir := 0, cc := 'Z', running := 1,
                     reg := fun _ => 0 }, rest)
  | _ => none

/-- The `while (fetch_instruction(...))` loop of `initialize_mem`. -/
def initialize_mem_loop (cpu : CPU) (mem_loc : Int) : List (Option Int) → Option CPU
  | [] => some cpu
  | line :: rest =>
    let mem_loc := if mem_loc > 0xffff then 0 else mem_loc
    match line with
    | some value_read =>
      match mem_write cpu mem_loc (toWord value_read) with
      | none => none
      | some cpu1 => initialize_mem_loop cpu1 (mem_loc + 1) rest
    | none => initialize_mem_loop cpu mem_loc rest

/-- Source `initialize_mem`. -/
def initialize_mem (cpu : CPU) (datafile : List (Option Int)) : Option CPU :=
  initialize_mem_loop { cpu with mem := fun _ => 0 } cpu.pc datafile

/-! ## External control operations -/

/-- Source `set_address_value(Address mem_address, Word value, CPU *cpu)`.  The
parameters are an `Address` and a `Word`, so the arguments are converted on
entry; then `if (mem_address >= 0 && mem_address < MEMLEN)` the assignment
`cpu->mem[mem_address] = value`, and otherwise only a message. -/
def set_address_value (mem_address value : Int) (cpu : CPU) : CPU :=
  let mem_address := toAddress mem_address
  let value := toWord value
  if mem_address ≥ 0 ∧ mem_address < MEMLEN then
    { cpu with mem := fun j => if j = mem_address then value else cpu.mem j }
  else cpu

/-- Source `set_register_value(Address reg_num, Word value, CPU *cpu)`.  The
parameters are an `Address` and a `Word`, so the arguments are converted on
entry; then `if (reg_num >= 0 && reg_num < NREG)` the assignment
`cpu->reg[reg_num] = value`, and otherwise only a message. -/
def set_register_value (reg_num value : Int) (cpu : CPU) : CPU :=
  let reg_num := toAddress reg_num
  let value := toWord value
  if reg_num ≥ 0 ∧ reg_num < NREG then reg_write cpu reg_num value
  else cpu

/-! ## Sequential composition of cycles -/

/-- Following the specification's words for multi-cycle execution:
`one_instruction_cycle` applied exactly `k` times, one after the other, with
no test of the running flag in between. -/
def spec_apply_cycles : Nat → CPU → List Int → Option (CPU × List Int)
  | 0, cpu, stdin => some (cpu, stdin)
  | k + 1, cpu, stdin =>
    match one_instruction_cycle cpu stdin with
    | none => none
    | some (cpu1, stdin1) => spec_apply_cycles k cpu1 stdin1

/-! ## Concrete machine states -/

/-- A running machine at `pc = 0x3000` with the one instruction `instr` there,
all other cells zero, and registers `R0 = r0`, `R1 = r1`, the others zero. -/
def sample_state (instr r0 r1 : Int) : CPU where
  mem := fun a => if a = 0x3000 then instr else 0
  reg := fun i => if i = 0 then r0 else if i = 1 then r1 else 0
  pc := 0x3000
  running := 1
  ir := 0
  cc := 'Z'

/-- A running machine at `pc = 0xFFFE` with the one instruction `instr` there,
all other cells zero, `R0 = r0` and the other registers zero: the post-fetch
`pc` is `0xFFFF`. -/
def near_top_state (instr r0 : Int) : CPU where
  mem := fun a => if a = 0xFFFE then instr else 0
  reg := fun i => if i = 0 then r0 else 0
  pc := 0xFFFE
  running := 1
  ir := 0
  cc := 'Z'

/-- A running machine about to fetch `instr` from the last cell `0xFFFF`, so
that the post-fetch `pc` is `0x0000`. -/
def top_state (instr : Int) : CPU where
  mem := fun a => if a = 0xFFFF then instr else 0
  reg := fun _ => 0
  pc := 0xFFFF
  running := 1
  ir := 0
  cc := 'Z'

/-! ## Bit-field lemmas -/

theorem land_mask (x n r : Nat) :
    Nat.land x ((2 ^ n - 1) * 2 ^ r) = (x / 2 ^ r % 2 ^ n) * 2 ^ r := by
  show x &&& ((2 ^ n - 1) * 2 ^ r) = _
  rw [← Nat.shiftLeft_eq, ← Nat.shiftLeft_eq, ← Nat.shiftRight_eq_div_pow]
  apply Nat.eq_of_testBit_eq
  intro i
  simp only [Nat.testBit_and, Nat.testBit_shiftLeft, Nat.testBit_two_pow_sub_one,
    Nat.testBit_mod_two_pow, Nat.testBit_shiftRight]
  by_cases h : r ≤ i
  · have : r + (i - r) = i := by omega
    simp [h, this, Bool.and_comm]
  · simp [h]

theorem toU32_cast (w : Int) : ((toU32 w : Nat) : Int) = w % 4294967296 := by
  unfold toU32; omega

theorem toU32_of_small (m : Nat) (h : m < 65536) : toU32 (m : Int) = m := by
  unfold toU32; omega

theorem ofU32_of_small (m : Nat) (h : m < 65536) : ofU32 m = (m : Int) := by
  unfold ofU32; split <;> omega

theorem toWord_of_range (x : Int) (h0 : -32768 ≤ x) (h1 : x ≤ 32767) : toWord x = x := by
  unfold toWord; omega

theorem toWord_emod (x : Int) : toWord x % 65536 = x % 65536 := by
  unfold toWord; omega

theorem int_not_emod (w : Int) : (int_not w + 1) % 65536 = (-w) % 65536 := by
  have hx := toU32_cast w
  unfold int_not ofU32
  split <;> omega

theorem field_nat_eq (w : Int) (n r : Nat) (h : r + n ≤ 16) :
    ((toU32 w / 2 ^ r % 2 ^ n : Nat) : Int) = w % 65536 / 2 ^ r % 2 ^ n := by
  have hx := toU32_cast w
  have hu : toU32 w % 65536 = (w % 65536).toNat := by omega
  have hd : 2 ^ r * 2 ^ n ∣ 65536 := by
    rw [← pow_add]; exact pow_dvd_pow 2 h
  rw [← Nat.mod_mul_right_div_self, ← Nat.mod_mod_of_dvd _ hd, hu,
    Nat.mod_mul_right_div_self]
  have hc : (((w % 65536).toNat : Nat) : Int) = w % 65536 := by omega
  push_cast
  rw [hc]

theorem field_bounds (w : Int) (r n : Nat) :
    0 ≤ w % 65536 / 2 ^ r % 2 ^ n ∧ w % 65536 / 2 ^ r % 2 ^ n < 2 ^ n :=
  ⟨Int.emod_nonneg _ (by positivity), Int.emod_lt_of_pos _ (by positivity)⟩

/-- The value `bit_select_us` computes: bits `right .. left` of the 16-bit
pattern of `value`, converted to a `Word`. -/
theorem bit_select_us_eq (w : Int) (l r : Nat) (hrl : r ≤ l) (hl : l ≤ 15) :
    bit_select_us w l r = toWord (w % 65536 / 2 ^ r % 2 ^ (l - r + 1)) := by
  have h1 : ofU32 (unsigned_add (unsigned_sub l r) 1) = ((l - r + 1 : Nat) : Int) := by
    unfold ofU32 unsigned_add unsigned_sub
    split <;> omega
  have hpos : 1 ≤ 2 ^ (l - r + 1) := Nat.one_le_two_pow
  have hmask : int_shl (int_shl 1 ((l - r + 1 : Nat) : Int) - 1) (r : Int)
      = (((2 ^ (l - r + 1) - 1) * 2 ^ r : Nat) : Int) := by
    unfold int_shl
    simp only [Int.toNat_ofNat]
    push_cast [hpos]
    ring
  have hlt : (2 ^ (l - r + 1) - 1) * 2 ^ r < 65536 := by
    have h2 : 2 ^ (l - r + 1) * 2 ^ r ≤ 2 ^ 16 := by
      rw [← pow_add]; exact Nat.pow_le_pow_right (by norm_num) (by omega)
    have h3 : 0 < 2 ^ r := Nat.pos_pow_of_pos _ (by norm_num)
    have h4 : (2 ^ (l - r + 1) - 1) * 2 ^ r + 2 ^ r = 2 ^ (l - r + 1) * 2 ^ r := by
      rw [Nat.sub_mul]; have := Nat.mul_le_mul_right (2 ^ r) hpos; omega
    omega
  have hle : (toU32 w / 2 ^ r % 2 ^ (l - r + 1)) * 2 ^ r < 65536 := by
    rw [← land_mask]
    exact lt_of_le_of_lt Nat.and_le_right hlt
  unfold bit_select_us
  simp only [h1, hmask]
  unfold int_and
  rw [toU32_of_small _ hlt, land_mask, ofU32_of_small _ hle]
  unfold int_shr
  rw [Nat.cast_mul, Int.mul_ediv_cancel _ (by positivity), field_nat_eq w _ r (by omega)]

/-- A field narrower than the word is returned as it is. -/
theorem bit_select_us_narrow (w : Int) (l r : Nat) (hrl : r ≤ l) (hl : l ≤ 15)
    (hn : l - r < 15) :
    bit_select_us w l r = w % 65536 / 2 ^ r % 2 ^ (l - r + 1) := by
  rw [bit_select_us_eq w l r hrl hl]
  have hb := field_bounds w r (l - r + 1)
  have h2 : (2 : Int) ^ (l - r + 1) ≤ 2 ^ 15 :=
    pow_le_pow_right₀ (by norm_num) (by omega)
  exact toWord_of_range _ (by omega) (by omega)

/-- The test of `bit_select_s` with `right = 0` isolates bit `left`. -/
theorem bit_select_s_test (w : Int) (l : Nat) (hl : l ≤ 15) :
    int_and w (int_shl 1 ((ofU32 (unsigned_sub 0 l)).natAbs : Int))
      = (w % 65536 / 2 ^ l % 2) * 2 ^ l := by
  have h1 : ((ofU32 (unsigned_sub 0 l)).natAbs : Int) = (l : Int) := by
    unfold ofU32 unsigned_sub
    split <;> omega
  have h2 : int_shl 1 (l : Int) = ((2 ^ l : Nat) : Int) := by
    unfold int_shl; simp
  have h3 : 2 ^ l ≤ 2 ^ 15 := Nat.pow_le_pow_right (by norm_num) hl
  have h4 : Nat.land (toU32 w) (2 ^ l) = (toU32 w / 2 ^ l % 2) * 2 ^ l := by
    have := land_mask (toU32 w) 1 l
    simpa using this
  have h5 : (toU32 w / 2 ^ l % 2) * 2 ^ l < 65536 := by
    have : toU32 w / 2 ^ l % 2 < 2 := Nat.mod_lt _ (by norm_num)
    have : (toU32 w / 2 ^ l % 2) * 2 ^ l ≤ 1 * 2 ^ l := Nat.mul_le_mul_right _ (by omega)
    omega
  rw [h1, h2]
  unfold int_and
  rw [toU32_of_small _ (by omega), h4, ofU32_of_small _ h5]
  have := field_nat_eq w 1 l (by omega)
  push_cast at this ⊢
  rw [this]

/-- For `right = 0` and a field of at most 15 bits, `bit_select_s` returns the
two's-complement value of the low `left + 1` bits. -/
theorem bit_select_s_low (w : Int) (l : Nat) (hl : l ≤ 14) :
    bit_select_s w l 0 =
      if w % 2 ^ (l + 1) < 2 ^ l then w % 2 ^ (l + 1) else w % 2 ^ (l + 1) - 2 ^ (l + 1) := by
  unfold bit_select_s
  rw [bit_select_s_test w l (by omega), bit_select_us_narrow _ l 0 (by omega) (by omega) (by omega),
    bit_select_us_narrow _ l 0 (by omega) (by omega) (by omega), toWord_emod, int_not_emod]
  simp only [Nat.sub_zero, pow_zero, Int.ediv_one]
  interval_cases l <;> simp only [toWord] <;> norm_num <;> split <;> split <;> omega

/-! ## The fields of an instruction word -/

theorem opcode_field (w : Int) : bit_select_us w 15 12 = w % 65536 / 4096 := by
  rw [bit_select_us_narrow w 15 12 (by omega) (by omega) (by omega)]
  norm_num
  omega

theorem field_11_9 (w : Int) : bit_select_us w 11 9 = w % 65536 / 512 % 8 := by
  rw [bit_select_us_narrow w 11 9 (by omega) (by omega) (by omega)]
  norm_num

theorem field_8_6 (w : Int) : bit_select_us w 8 6 = w % 65536 / 64 % 8 := by
  rw [bit_select_us_narrow w 8 6 (by omega) (by omega) (by omega)]
  norm_num

theorem field_5_5 (w : Int) : bit_select_us w 5 5 = w % 65536 / 32 % 2 := by
  rw [bit_select_us_narrow w 5 5 (by omega) (by omega) (by omega)]
  norm_num

theorem field_11_11 (w : Int) : bit_select_us w 11 11 = w % 65536 / 2048 % 2 := by
  rw [bit_select_us_narrow w 11 11 (by omega) (by omega) (by omega)]
  norm_num

theorem field_2_0 (w : Int) : bit_select_us w 2 0 = w % 8 := by
  rw [bit_select_us_narrow w 2 0 (by omega) (by omega) (by omega)]
  norm_num

theorem field_7_0 (w : Int) : bit_select_us w 7 0 = w % 256 := by
  rw [bit_select_us_narrow w 7 0 (by omega) (by omega) (by omega)]
  norm_num

theorem imm5_field (w : Int) :
    bit_select_s w 4 0 = if w % 32 < 16 then w % 32 else w % 32 - 32 := by
  rw [bit_select_s_low w 4 (by omega)]; norm_num

theorem offset6_field (w : Int) :
    bit_select_s w 5 0 = if w % 64 < 32 then w % 64 else w % 64 - 64 := by
  rw [bit_select_s_low w 5 (by omega)]; norm_num

theorem pcoffset9_field (w : Int) :
    bit_select_s w 8 0 = if w % 512 < 256 then w % 512 else w % 512 - 512 := by
  rw [bit_select_s_low w 8 (by omega)]; norm_num

theorem pcoffset11_field (w : Int) :
    bit_select_s w 10 0 = if w % 2048 < 1024 then w % 2048 else w % 2048 - 2048 := by
  rw [bit_select_s_low w 10 (by omega)]; norm_num

/-! ## The cycle of a running machine -/

/-- A running machine whose `pc` is an `Address` fetches `mem[pc]`, advances
`pc` modulo 65536 and dispatches on the top four bits of the word fetched. -/
theorem one_instruction_cycle_running (s : CPU) (inp : List Int)
    (hrun : s.running ≠ 0) (hpc0 : 0 ≤ s.pc) (hpc1 : s.pc ≤ 65535) :
    one_instruction_cycle s inp
      = dispatch (s.mem s.pc % 65536 / 4096)
          { s with ir := s.mem s.pc, pc := toAddress (s.pc + 1) } inp := by
  have h1 : ¬ s.pc > 0xffff := by omega
  have h2 : 0 ≤ s.pc ∧ s.pc < MEMLEN := ⟨hpc0, by unfold MEMLEN; omega⟩
  unfold one_instruction_cycle
  simp only [hrun, h1, if_false, mem_read, h2, and_self, if_true, opcode_field]

/-- The state after `cpu->reg[dr] = v; update_condition_code(cpu, cpu->reg[dr])`:
register `dr` holds `v`, the condition code is the sign of `v`, nothing else
changes. -/
theorem reg_write_cc (cpu : CPU) (dr v : Int) :
    let c := update_condition_code (reg_write cpu dr v) ((reg_write cpu dr v).reg dr)
    c.reg dr = v ∧ (∀ i, i ≠ dr → c.reg i = cpu.reg i) ∧ c.mem = cpu.mem
      ∧ c.pc = cpu.pc ∧ c.running = cpu.running ∧ c.ir = cpu.ir
      ∧ (c.cc = 'P' ↔ 0 < v) ∧ (c.cc = 'Z' ↔ v = 0) ∧ (c.cc = 'N' ↔ v < 0) := by
  have hNP : ('N' : Char) ≠ 'P' := by decide
  have hNZ : ('N' : Char) ≠ 'Z' := by decide
  have hZP : ('Z' : Char) ≠ 'P' := by decide
  intro c
  have hv : (reg_write cpu dr v).reg dr = v := by simp [reg_write]
  rcases lt_trichotomy v 0 with h | h | h
  · have h1 : ¬ 0 < v := by omega
    have h2 : v ≠ 0 := by omega
    simp only [c, hv, update_condition_code, h, if_true, reg_write]
    simp [hNP, hNZ, h1, h2, h]
    intro i hi; simp [hi]
  · have h1 : ¬ 0 < v := by omega
    have h2 : ¬ v < 0 := by omega
    simp only [c, hv, update_condition_code, h2, h, if_true, if_false, reg_write]
    simp [hZP, hNZ.symm]
    intro i hi; simp [hi]
  · have h1 : ¬ v = 0 := by omega
    have h2 : ¬ v < 0 := by omega
    simp only [c, hv, update_condition_code, h2, h1, if_false, reg_write]
    simp [hZP.symm, hNP.symm, h1, h2, h]
    intro i hi; simp [hi]

/-! ## The handlers in closed form -/

theorem dispatch_ADD (c : CPU) (inp : List Int) :
    dispatch 1 c inp = some (instr_ADD c, inp) := by
  simp [dispatch]

/-- The register `instr_ADD` writes and the value it writes there. -/
theorem instr_ADD_eq (c : CPU) :
    instr_ADD c =
      update_condition_code
        (reg_write c (c.ir % 65536 / 512 % 8)
          (toWord (c.reg (c.ir % 65536 / 64 % 8)
            + (if c.ir % 65536 / 32 % 2 = 0 then c.reg (c.ir % 8)
               else if c.ir % 32 < 16 then c.ir % 32 else c.ir % 32 - 32))))
        ((reg_write c (c.ir % 65536 / 512 % 8)
          (toWord (c.reg (c.ir % 65536 / 64 % 8)
            + (if c.ir % 65536 / 32 % 2 = 0 then c.reg (c.ir % 8)
               else if c.ir % 32 < 16 then c.ir % 32 else c.ir % 32 - 32)))).reg
          (c.ir % 65536 / 512 % 8)) := by
  unfold instr_ADD
  simp only [field_5_5, field_11_9, field_8_6, field_2_0, imm5_field]
  by_cases h : c.ir % 65536 / 32 % 2 = 0
  · simp only [h, if_true]
  · simp only [h, if_false]

theorem mem_read_in_range (c : CPU) (i : Int) (h0 : 0 ≤ i) (h1 : i ≤ 65535) :
    mem_read c i = some (c.mem i) := by
  have : 0 ≤ i ∧ i < MEMLEN := ⟨h0, by unfold MEMLEN; omega⟩
  simp [mem_read, this]

/-- On small non-negative operands the C operator `&` is the bitwise AND of
the natural numbers. -/
theorem int_and_nat (a b : Nat) (ha : a < 65536) (hb : b < 65536) :
    int_and (a : Int) (b : Int) = ((Nat.land a b : Nat) : Int) := by
  unfold int_and
  rw [toU32_of_small a ha, toU32_of_small b hb]
  exact ofU32_of_small _ (lt_of_le_of_lt Nat.and_le_left ha)

theorem get_condition_num_cast (c : CPU) :
    get_condition_num c
      = (((if c.cc = 'N' then 1 else if c.cc = 'Z' then 2 else if c.cc = 'P' then 4 else 0 : Nat)
          : Nat) : Int) := by
  unfold get_condition_num
  split_ifs <;> rfl

theorem dispatch_BR (c : CPU) (inp : List Int) :
    dispatch 0 c inp = some (instr_BR c, inp) := by
  simp [dispatch]

theorem dispatch_JSR (c : CPU) (inp : List Int) :
    dispatch 4 c inp = some (instr_JSR c, inp) := by
  simp [dispatch]

theorem dispatch_TRAP (c : CPU) (inp : List Int) :
    dispatch 15 c inp = instr_TRAP c inp := by
  simp [dispatch]

/-- The branch test of `instr_BR` and the state it leaves. -/
theorem instr_BR_eq (c : CPU) :
    instr_BR c =
      if Nat.land (c.ir % 65536 / 512 % 8).toNat
          (if c.cc = 'N' then 1 else if c.cc = 'Z' then 2 else if c.cc = 'P' then 4 else 0) ≠ 0
      then { c with pc := (c.pc + (if c.ir % 512 < 256 then c.ir % 512 else c.ir % 512 - 512))
                            % 65536 }
      else c := by
  have hc : 0 ≤ c.ir % 65536 / 512 % 8 ∧ c.ir % 65536 / 512 % 8 < 8 := by omega
  have hcast : (((c.ir % 65536 / 512 % 8).toNat : Nat) : Int) = c.ir % 65536 / 512 % 8 := by
    omega
  have hm : (if c.cc = 'N' then 1 else if c.cc = 'Z' then 2 else if c.cc = 'P' then 4 else 0 : Nat)
      < 65536 := by
    split_ifs <;> omega
  unfold instr_BR
  simp only [field_11_9, pcoffset9_field, toAddress]
  rw [get_condition_num_cast, ← hcast, int_and_nat _ _ (by omega) hm]
  simp only [ne_eq, Nat.cast_eq_zero, Int.toNat_ofNat]

/-! ## Claims about the bit-field functions -/

/-- C1 (as stated, refuted).  The field 4..1 of 50 has its top bit (bit 4 of
the word) set, yet `bit_select_s` returns the unsigned value 9 and not
`9 - 2^4`; and on the whole word `-1` (bit 15 set) both functions return `-1`,
not `bit_select_us - 2^16`. -/
theorem bit_select_s_identity_fails :
    ((50 : Int) % 65536 / 2 ^ 4 % 2 = 1
      ∧ bit_select_s 50 4 1 = 9
      ∧ bit_select_s 50 4 1 ≠ bit_select_us 50 4 1 - 2 ^ (4 - 1 + 1))
    ∧ ((-1 : Int) % 65536 / 2 ^ 15 % 2 = 1
      ∧ bit_select_s (-1) 15 0 = -1
      ∧ bit_select_s (-1) 15 0 ≠ bit_select_us (-1) 15 0 - 2 ^ (15 - 0 + 1)) := by
  decide

/-- C1 (amended).  For `right = 0` and every `left ≤ 15`: `bit_select_s` equals
`bit_select_us` when bit `left` of the word is 0; when that bit is 1 it equals
`bit_select_us - 2^(left+1)` for `left ≤ 14`, and on the whole word
(`left = 15`) it equals `bit_select_us`. -/
theorem bit_select_s_right_zero (w : Int) (l : Nat) (hl : l ≤ 15) :
    (w % 65536 / 2 ^ l % 2 = 0 → bit_select_s w l 0 = bit_select_us w l 0)
    ∧ (w % 65536 / 2 ^ l % 2 = 1 → l ≤ 14 →
        bit_select_s w l 0 = bit_select_us w l 0 - 2 ^ (l - 0 + 1))
    ∧ (w % 65536 / 2 ^ l % 2 = 1 → l = 15 →
        bit_select_s w l 0 = bit_select_us w l 0) := by
  refine ⟨?_, ?_, ?_⟩
  · intro h
    unfold bit_select_s
    rw [bit_select_s_test w l hl, h]
    simp
  · intro h h14
    rw [bit_select_s_low w l h14, bit_select_us_narrow w l 0 (by omega) hl (by omega)]
    simp only [Nat.sub_zero, pow_zero, Int.ediv_one]
    interval_cases l <;> norm_num at h ⊢ <;> intros <;> omega
  · intro h h15
    subst h15
    unfold bit_select_s
    rw [bit_select_s_test w 15 hl, h, bit_select_us_eq _ 15 0 (by omega) (by omega),
      bit_select_us_eq _ 15 0 (by omega) (by omega), toWord_emod, int_not_emod]
    simp only [toWord]
    norm_num
    omega

/-- Witness for C1 (amended): the word 50 and the field 4..0. -/
theorem bit_select_s_right_zero_witness :
    ((50 : Int) % 65536 / 2 ^ 4 % 2 = 0 → bit_select_s 50 4 0 = bit_select_us 50 4 0)
    ∧ ((50 : Int) % 65536 / 2 ^ 4 % 2 = 1 → 4 ≤ 14 →
        bit_select_s 50 4 0 = bit_select_us 50 4 0 - 2 ^ (4 - 0 + 1))
    ∧ ((50 : Int) % 65536 / 2 ^ 4 % 2 = 1 → 4 = 15 →
        bit_select_s 50 4 0 = bit_select_us 50 4 0) :=
  bit_select_s_right_zero 50 4 (by decide)

/-- C2 (as stated, refuted).  On the whole word (`left = 15`, `right = 0`) a
negative word comes back unchanged: `bit_select_us(-1, 15, 0) = -1`, outside
`[0, 2^16 - 1]`. -/
theorem bit_select_us_whole_word_negative :
    bit_select_us (-1) 15 0 = -1
    ∧ ¬ (0 ≤ bit_select_us (-1) 15 0 ∧ bit_select_us (-1) 15 0 ≤ 2 ^ (15 - 0 + 1) - 1) := by
  decide

/-- C2 (amended).  For every word `w` and every range `0 ≤ r ≤ l ≤ 15`, the
value of `bit_select_us(w, l, r)` lies in `[0, 2^(l-r+1) - 1]`, provided the
field is narrower than the word (`l - r < 15`) or the word is not negative. -/
theorem bit_select_us_range (w : Int) (l r : Nat) (hrl : r ≤ l) (hl : l ≤ 15)
    (h : l - r < 15 ∨ (0 ≤ w ∧ w ≤ 32767)) :
    0 ≤ bit_select_us w l r ∧ bit_select_us w l r ≤ 2 ^ (l - r + 1) - 1 := by
  rcases h with h | ⟨h0, h1⟩
  · rw [bit_select_us_narrow w l r hrl hl h]
    have := field_bounds w r (l - r + 1)
    omega
  · by_cases hn : l - r < 15
    · rw [bit_select_us_narrow w l r hrl hl hn]
      have := field_bounds w r (l - r + 1)
      omega
    · have hl15 : l = 15 := by omega
      have hr0 : r = 0 := by omega
      subst hl15 hr0
      rw [bit_select_us_eq w 15 0 (by omega) (by omega)]
      simp only [toWord]
      norm_num
      omega

/-- Witness for C2 (amended): the negative word `-4059` (`0xF025`) and the
opcode field 15..12. -/
theorem bit_select_us_range_witness :
    0 ≤ bit_select_us (-4059) 15 12 ∧ bit_select_us (-4059) 15 12 ≤ 2 ^ (15 - 12 + 1) - 1 :=
  bit_select_us_range (-4059) 15 12 (by decide) (by decide) (Or.inl (by decide))

/-! ## Claims about the instruction cycle

A cycle is stated for a running machine (`s.running ≠ 0`) whose `pc` is an
`Address` (`0 ≤ s.pc`, `s.pc ≤ 65535`).  The word fetched is `s.mem s.pc`; its
fields are written out arithmetically on the 16-bit pattern `% 65536`: the
opcode is `/ 4096`, bits 11..9 are `/ 512 % 8`, bits 8..6 are `/ 64 % 8`, and a
sign-extended low field of `n` bits is `% 2^n`, less `2^n` from `2^(n-1)` on. -/

/-- C3 (defect in `instr_STR`).  `STR R0, R1, #0` (`0x7040`) with `R0 = 42` and
`R1 = 0x4000` leaves cell `0x4000` at 0 and stores 42 into cell 1, the number
of the base register; `STR R0, R0, #-1` (`0x703F`) indexes cell `0 + (-1)`,
outside the array. -/
theorem instr_STR_uses_register_number :
    ((one_instruction_cycle (sample_state 0x7040 42 0x4000) []).map
        fun r => (r.1.mem 0x4000, r.1.mem 1)) = some (0, 42)
    ∧ (one_instruction_cycle (sample_state 0x703F 42 0x4000) []).isNone = true := by
  decide

/-- C4 (defect in the memory handlers).  `LDR R0, R1, #0` (`0x6040`) with
`R1 = -1` (the word `0xFFFF`) indexes `mem[-1]`, and `LD R0, #-1` (`0x21FF`)
fetched from `0xFFFF` indexes `mem[0 + (-1)]`: both leave the array instead of
wrapping to `0xFFFF`, whereas the same `LDR` with `R1 = 0x3000` is in range. -/
theorem memory_index_leaves_array :
    (one_instruction_cycle (sample_state 0x6040 0 (-1)) []).isNone = true
    ∧ (one_instruction_cycle (top_state 0x21FF) []).isNone = true
    ∧ ((one_instruction_cycle (sample_state 0x6040 0 0x3000) []).map
        fun r => r.1.reg 0) = some 0x6040 := by
  decide

/-- C7.  A running machine that fetches an ADD (opcode 1) writes into `reg[dr]`
the 16-bit word of `reg[src1] + reg[src2]` (mode bit 0) or of
`reg[src1] + sign-extended imm5` (mode bit 1), the operands being the register
values before the instruction; every other register and the whole memory are
unchanged. -/
theorem add_cycle (s : CPU) (inp : List Int)
    (hrun : s.running ≠ 0) (hpc0 : 0 ≤ s.pc) (hpc1 : s.pc ≤ 65535)
    (hop : s.mem s.pc % 65536 / 4096 = 1) :
    ∃ s', one_instruction_cycle s inp = some (s', inp)
      ∧ s'.reg (s.mem s.pc % 65536 / 512 % 8)
          = toWord (s.reg (s.mem s.pc % 65536 / 64 % 8)
              + (if s.mem s.pc % 65536 / 32 % 2 = 0 then s.reg (s.mem s.pc % 8)
                 else if s.mem s.pc % 32 < 16 then s.mem s.pc % 32
                 else s.mem s.pc % 32 - 32))
      ∧ (∀ i, i ≠ s.mem s.pc % 65536 / 512 % 8 → s'.reg i = s.reg i)
      ∧ s'.mem = s.mem := by
  rw [one_instruction_cycle_running s inp hrun hpc0 hpc1, hop, dispatch_ADD, instr_ADD_eq]
  refine ⟨_, rfl, ?_⟩
  have h := reg_write_cc { s with ir := s.mem s.pc, pc := toAddress (s.pc + 1) }
    (s.mem s.pc % 65536 / 512 % 8)
    (toWord (s.reg (s.mem s.pc % 65536 / 64 % 8)
              + (if s.mem s.pc % 65536 / 32 % 2 = 0 then s.reg (s.mem s.pc % 8)
                 else if s.mem s.pc % 32 < 16 then s.mem s.pc % 32
                 else s.mem s.pc % 32 - 32)))
  exact ⟨h.1, h.2.1, h.2.2.1⟩

/-- Witness for C7: `ADD R0, R0, #1` (`0x1021`) with `R0 = 32767` leaves
`R0 = -32768`. -/
theorem add_cycle_witness :
    (sample_state 0x1021 32767 0).running ≠ 0
    ∧ (sample_state 0x1021 32767 0).mem (sample_state 0x1021 32767 0).pc % 65536 / 4096 = 1
    ∧ ∃ s', one_instruction_cycle (sample_state 0x1021 32767 0) [] = some (s', [])
        ∧ s'.reg 0 = -32768 ∧ s'.reg 1 = 0 := by
  obtain ⟨s', h1, h2, h3, _⟩ :=
    add_cycle (sample_state 0x1021 32767 0) [] (by decide) (by decide) (by decide) (by decide)
  exact ⟨by decide, by decide, s', h1, h2.trans (by decide), (h3 1 (by decide)).trans (by decide)⟩

/-- C6.  Loading the image `0x3000; 0x1225; 0xF025` into any machine gives
`pc = 0x3000`, zero registers, `CC = 'Z'`, `running = 1` and the two words at
`0x3000` and `0x3001`; two instruction cycles from there (one by one, or
`many_instruction_cycles` with 2) end with `R1 = 5`, `CC = 'P'` and
`running = 0`. -/
theorem load_add_halt (cpu0 : CPU) (inp : List Int) :
    ∃ c1 rest c2 c3 c4,
      initialize_control_unit cpu0 [some 0x3000, some 0x1225, some 0xF025] = some (c1, rest)
      ∧ initialize_mem c1 rest = some c2
      ∧ c2.pc = 0x3000 ∧ (∀ i, c2.reg i = 0) ∧ c2.cc = 'Z' ∧ c2.running = 1
      ∧ c2.mem 0x3000 = 0x1225 ∧ c2.mem 0x3001 = 0xF025 - 65536
      ∧ one_instruction_cycle c2 inp = some (c3, inp)
      ∧ one_instruction_cycle c3 inp = some (c4, inp)
      ∧ many_instruction_cycles 2 c2 inp = some (c4, inp)
      ∧ c4.reg 1 = 5 ∧ c4.cc = 'P' ∧ c4.running = 0 := by
  have h1 : initialize_control_unit cpu0 [some 0x3000, some 0x1225, some 0xF025]
      = some ({ cpu0 with pc := 0x3000, ir := 0, cc := 'Z', running := 1, reg := fun _ => 0 },
          [some 0x1225, some 0xF025]) := rfl
  have h2 : initialize_mem
      { cpu0 with pc := 0x3000, ir := 0, cc := 'Z', running := 1, reg := fun _ => 0 }
      [some 0x1225, some 0xF025]
      = some { mem := fun j => if j = 0x3001 then -4059 else if j = 0x3000 then 0x1225 else 0,
               reg := fun _ => 0, pc := 0x3000, running := 1, ir := 0, cc := 'Z' } := rfl
  have h3 : one_instruction_cycle
      { mem := fun j => if j = 0x3001 then -4059 else if j = 0x3000 then 0x1225 else 0,
        reg := fun _ => 0, pc := 0x3000, running := 1, ir := 0, cc := 'Z' } inp
      = some ({ mem := fun j => if j = 0x3001 then -4059 else if j = 0x3000 then 0x1225 else 0,
                reg := fun j => if j = 1 then 5 else 0,
                pc := 0x3001, running := 1, ir := 0x1225, cc := 'P' }, inp) := by
    rw [one_instruction_cycle_running _ _ (by decide) (by decide) (by decide)]
    rfl
  have h4 : one_instruction_cycle
      { mem := fun j => if j = 0x3001 then -4059 else if j = 0x3000 then 0x1225 else 0,
        reg := fun j => if j = 1 then 5 else 0,
        pc := 0x3001, running := 1, ir := 0x1225, cc := 'P' } inp
      = some ({ mem := fun j => if j = 0x3001 then -4059 else if j = 0x3000 then 0x1225 else 0,
                reg := fun j => if j = 1 then 5 else 0,
                pc := 0x3002, running := 0, ir := -4059, cc := 'P' }, inp) := by
    rw [one_instruction_cycle_running _ _ (by decide) (by decide) (by decide)]
    rfl
  refine ⟨_, _, _, _, _, h1, h2, rfl, fun _ => rfl, rfl, rfl, by decide, by decide, h3, h4, ?_,
    by decide, rfl, rfl⟩
  simp only [many_instruction_cycles, many_loop, h3, h4]
  rfl

/-- C8.  A running machine that fetches a BR (opcode 0): when
`cond AND mask(CC)` is non-zero (mask 1 for `'N'`, 2 for `'Z'`, 4 for `'P'`)
the new `pc` is the post-fetch `pc` plus the sign-extended pcoffset9 modulo
65536, otherwise the post-fetch `pc`; registers, memory and CC are unchanged.
With `CC = 'Z'` the cond field 2 branches and the cond field 5 does not. -/
theorem br_cycle (s : CPU) (inp : List Int)
    (hrun : s.running ≠ 0) (hpc0 : 0 ≤ s.pc) (hpc1 : s.pc ≤ 65535)
    (hop : s.mem s.pc % 65536 / 4096 = 0) :
    ∃ s', one_instruction_cycle s inp = some (s', inp)
      ∧ s'.pc =
          (if Nat.land (s.mem s.pc % 65536 / 512 % 8).toNat
              (if s.cc = 'N' then 1 else if s.cc = 'Z' then 2 else if s.cc = 'P' then 4 else 0)
              ≠ 0
           then ((s.pc + 1) % 65536
              + (if s.mem s.pc % 512 < 256 then s.mem s.pc % 512 else s.mem s.pc % 512 - 512))
              % 65536
           else (s.pc + 1) % 65536)
      ∧ s'.reg = s.reg ∧ s'.mem = s.mem ∧ s'.cc = s.cc
      ∧ (s.cc = 'Z' → s.mem s.pc % 65536 / 512 % 8 = 2 →
          s'.pc = ((s.pc + 1) % 65536
            + (if s.mem s.pc % 512 < 256 then s.mem s.pc % 512 else s.mem s.pc % 512 - 512))
            % 65536)
      ∧ (s.cc = 'Z' → s.mem s.pc % 65536 / 512 % 8 = 5 → s'.pc = (s.pc + 1) % 65536) := by
  rw [one_instruction_cycle_running s inp hrun hpc0 hpc1, hop, dispatch_BR, instr_BR_eq]
  refine ⟨_, rfl, ?_⟩
  simp only [toAddress]
  have hZN : ('Z' : Char) ≠ 'N' := by decide
  by_cases h : Nat.land (s.mem s.pc % 65536 / 512 % 8).toNat
      (if s.cc = 'N' then 1 else if s.cc = 'Z' then 2 else if s.cc = 'P' then 4 else 0) ≠ 0
  · rw [if_pos h, if_pos h]
    refine ⟨rfl, rfl, rfl, rfl, fun _ _ => rfl, ?_⟩
    intro hz h5
    rw [hz, h5] at h
    exact absurd h (by simp [hZN]; decide)
  · rw [if_neg h, if_neg h]
    refine ⟨rfl, rfl, rfl, rfl, ?_, fun _ _ => rfl⟩
    intro hz h2
    rw [hz, h2] at h
    exact absurd (by simp [hZN]) h

/-- Witness for C8: `BRz #3` (`0x0403`) with `CC = 'Z'` moves `pc` from
`0x3000` to `0x3004`. -/
theorem br_cycle_witness :
    (sample_state 0x0403 0 0).running ≠ 0
    ∧ (sample_state 0x0403 0 0).mem (sample_state 0x0403 0 0).pc % 65536 / 4096 = 0
    ∧ ∃ s', one_instruction_cycle (sample_state 0x0403 0 0) [] = some (s', [])
        ∧ s'.pc = 0x3004 ∧ s'.cc = 'Z' := by
  obtain ⟨s', h1, -, -, -, h2, h3, -⟩ :=
    br_cycle (sample_state 0x0403 0 0) [] (by decide) (by decide) (by decide) (by decide)
  exact ⟨by decide, by decide, s', h1, (h3 rfl (by decide)).trans (by decide), h2⟩

/-- C9.  A running machine that fetches a JSR (opcode 4, bit 11 set): `R7`
receives the post-fetch `pc` (as a `Word`, the same 16 bits), the new `pc` is
the post-fetch `pc` plus the sign-extended pcoffset11 modulo 65536 (plus 5
when the offset field is 5); `R0`-`R6`, memory and CC are unchanged. -/
theorem jsr_cycle (s : CPU) (inp : List Int)
    (hrun : s.running ≠ 0) (hpc0 : 0 ≤ s.pc) (hpc1 : s.pc ≤ 65535)
    (hop : s.mem s.pc % 65536 / 4096 = 4) (hmode : s.mem s.pc % 65536 / 2048 % 2 = 1) :
    ∃ s', one_instruction_cycle s inp = some (s', inp)
      ∧ s'.reg 7 = toWord ((s.pc + 1) % 65536)
      ∧ s'.reg 7 % 65536 = (s.pc + 1) % 65536
      ∧ s'.pc = ((s.pc + 1) % 65536
          + (if s.mem s.pc % 2048 < 1024 then s.mem s.pc % 2048 else s.mem s.pc % 2048 - 2048))
          % 65536
      ∧ (s.mem s.pc % 2048 = 5 → s'.pc = ((s.pc + 1) % 65536 + 5) % 65536)
      ∧ (∀ i, i ≠ 7 → s'.reg i = s.reg i) ∧ s'.mem = s.mem ∧ s'.cc = s.cc := by
  rw [one_instruction_cycle_running s inp hrun hpc0 hpc1, hop, dispatch_JSR]
  refine ⟨_, rfl, ?_⟩
  unfold instr_JSR
  simp only [field_11_11, hmode, if_true, pcoffset11_field, reg_write, toAddress]
  refine ⟨?_, ?_, ?_, ?_, ?_, ?_, ?_⟩
  · simp
  · simp only [if_true, toWord]
    omega
  · trivial
  · intro h5
    simp only [h5]
    norm_num
  · intro i hi
    simp [hi]
  · trivial
  · trivial

/-- Witness for C9: `JSR #5` (`0x4805`) at `0x3000` leaves `R7 = 0x3001` and
`pc = 0x3006`. -/
theorem jsr_cycle_witness :
    (sample_state 0x4805 0 0).running ≠ 0
    ∧ (sample_state 0x4805 0 0).mem (sample_state 0x4805 0 0).pc % 65536 / 4096 = 4
    ∧ (sample_state 0x4805 0 0).mem (sample_state 0x4805 0 0).pc % 65536 / 2048 % 2 = 1
    ∧ ∃ s', one_instruction_cycle (sample_state 0x4805 0 0) [] = some (s', [])
        ∧ s'.reg 7 = 0x3001 ∧ s'.pc = 0x3006 := by
  obtain ⟨s', h1, h2, -, -, h3, -⟩ :=
    jsr_cycle (sample_state 0x4805 0 0) [] (by decide) (by decide) (by decide) (by decide)
      (by decide)
  exact ⟨by decide, by decide, by decide, s', h1, h2.trans (by decide),
    (h3 (by decide)).trans (by decide)⟩

/-- C10.  `trap_halt` leaves `CC = 'P'` and `running = 0` whatever they were,
with registers and memory unchanged; and a running machine that fetches
`TRAP x25` (opcode 15, vector `0x25`) ends its cycle in such a state. -/
theorem trap_halt_effect (s : CPU) (inp : List Int) :
    ((trap_halt s).cc = 'P' ∧ (trap_halt s).running = 0
      ∧ (trap_halt s).reg = s.reg ∧ (trap_halt s).mem = s.mem)
    ∧ (s.running ≠ 0 → 0 ≤ s.pc → s.pc ≤ 65535 →
        s.mem s.pc % 65536 / 4096 = 15 → s.mem s.pc % 256 = 0x25 →
        ∃ s', one_instruction_cycle s inp = some (s', inp)
          ∧ s'.cc = 'P' ∧ s'.running = 0 ∧ s'.reg = s.reg ∧ s'.mem = s.mem) := by
  refine ⟨⟨rfl, rfl, rfl, rfl⟩, ?_⟩
  intro hrun hpc0 hpc1 hop hvec
  rw [one_instruction_cycle_running s inp hrun hpc0 hpc1, hop, dispatch_TRAP]
  unfold instr_TRAP
  simp only [field_7_0, hvec]
  norm_num
  exact ⟨rfl, rfl, rfl, rfl⟩

/-- Witness for C10: `TRAP x25` (`0xF025`, the word `-4059`) fetched by a
running machine with `CC = 'Z'`. -/
theorem trap_halt_effect_witness :
    (sample_state (-4059) 3 4).running ≠ 0
    ∧ (sample_state (-4059) 3 4).mem (sample_state (-4059) 3 4).pc % 65536 / 4096 = 15
    ∧ (sample_state (-4059) 3 4).mem (sample_state (-4059) 3 4).pc % 256 = 0x25
    ∧ ∃ s', one_instruction_cycle (sample_state (-4059) 3 4) [] = some (s', [])
        ∧ s'.cc = 'P' ∧ s'.running = 0 ∧ s'.reg 0 = 3 ∧ s'.reg 1 = 4 := by
  obtain ⟨s', h1, h2, h3, h4, -⟩ :=
    (trap_halt_effect (sample_state (-4059) 3 4) []).2 (by decide) (by decide) (by decide)
      (by decide) (by decide)
  exact ⟨by decide, by decide, by decide, s', h1, h2, h3, by rw [h4]; decide, by rw [h4]; decide⟩


/-! ## Claims about halting, the external operations and the traps -/

theorem dispatch_err (c : CPU) (inp : List Int) :
    dispatch 13 c inp = some (instr_err c, inp) := by
  simp [dispatch]

/-- C11 (as stated, refuted).  The reserved opcode 13 (`0xD000`, the word
`-12288`) fetched by a running machine leaves `running = 1`. -/
theorem reserved_opcode_keeps_running :
    ((one_instruction_cycle (sample_state (-12288) 0 0) []).map
        fun r => r.1.running) = some 1
    ∧ (sample_state (-12288) 0 0).mem (sample_state (-12288) 0 0).pc % 65536 / 4096 = 13 := by
  decide

/-- C11 (amended).  A running machine that fetches the reserved opcode 13 only
reports it: `running` is unchanged (the machine stays running), and so are
registers, memory and CC; `ir` and `pc` change by the fetch alone. -/
theorem reserved_opcode_cycle (s : CPU) (inp : List Int)
    (hrun : s.running ≠ 0) (hpc0 : 0 ≤ s.pc) (hpc1 : s.pc ≤ 65535)
    (hop : s.mem s.pc % 65536 / 4096 = 13) :
    ∃ s', one_instruction_cycle s inp = some (s', inp)
      ∧ s'.running = s.running ∧ s'.running ≠ 0
      ∧ s'.reg = s.reg ∧ s'.mem = s.mem ∧ s'.cc = s.cc
      ∧ s'.ir = s.mem s.pc ∧ s'.pc = (s.pc + 1) % 65536 := by
  rw [one_instruction_cycle_running s inp hrun hpc0 hpc1, hop, dispatch_err]
  exact ⟨_, rfl, rfl, hrun, rfl, rfl, rfl, rfl, rfl⟩

/-- Witness for C11 (amended): the word `0xD000` at `0x3000`. -/
theorem reserved_opcode_cycle_witness :
    (sample_state (-12288) 5 6).running ≠ 0
    ∧ (sample_state (-12288) 5 6).mem (sample_state (-12288) 5 6).pc % 65536 / 4096 = 13
    ∧ ∃ s', one_instruction_cycle (sample_state (-12288) 5 6) [] = some (s', [])
        ∧ s'.running = 1 ∧ s'.pc = 0x3001 := by
  obtain ⟨s', h1, h2, -, -, -, -, -, h3⟩ :=
    reserved_opcode_cycle (sample_state (-12288) 5 6) [] (by decide) (by decide) (by decide)
      (by decide)
  exact ⟨by decide, by decide, s', h1, h2.trans (by decide), h3.trans (by decide)⟩

/-- C12.  On a machine that is not running, `one_instruction_cycle` and
`many_instruction_cycles` (for every count) return the machine and the console
input as they are. -/
theorem halted_is_noop (s : CPU) (inp : List Int) (n : Int) (h : s.running = 0) :
    one_instruction_cycle s inp = some (s, inp)
    ∧ many_instruction_cycles n s inp = some (s, inp) := by
  constructor
  · simp [one_instruction_cycle, h]
  · simp [many_instruction_cycles, h]

/-- Witness for C12: a halted machine with an ADD at its `pc`, asked for one
cycle and for 7 cycles. -/
theorem halted_is_noop_witness :
    ({ sample_state 0x1021 1 2 with running := 0 } : CPU).running = 0
    ∧ one_instruction_cycle { sample_state 0x1021 1 2 with running := 0 } [65]
        = some ({ sample_state 0x1021 1 2 with running := 0 }, [65])
    ∧ many_instruction_cycles 7 { sample_state 0x1021 1 2 with running := 0 } [65]
        = some ({ sample_state 0x1021 1 2 with running := 0 }, [65]) :=
  ⟨rfl, halted_is_noop { sample_state 0x1021 1 2 with running := 0 } [65] 7 rfl⟩

/-- C13 (as stated, refuted).  The argument `0x10000` reaches
`set_address_value` as the `Address` 0, passes the range test, and cell 0
receives the value. -/
theorem poke_0x10000_writes_cell_zero :
    (sample_state 0 0 0).mem 0 = 0
    ∧ (set_address_value 0x10000 42 (sample_state 0 0 0)).mem 0 = 42 := by
  decide

/-- C13 (amended).  `set_address_value` never rejects: the address argument is
taken modulo 65536 and that cell receives the value (as a `Word`); every other
cell, the registers, `pc`, `ir`, CC and `running` are unchanged.  For the
argument `0x10000` the cell written is cell 0. -/
theorem set_address_value_writes (a v : Int) (s : CPU) :
    (set_address_value a v s).mem (a % 65536) = toWord v
    ∧ (∀ j, j ≠ a % 65536 → (set_address_value a v s).mem j = s.mem j)
    ∧ (set_address_value a v s).reg = s.reg
    ∧ (set_address_value a v s).pc = s.pc
    ∧ (set_address_value a v s).ir = s.ir
    ∧ (set_address_value a v s).cc = s.cc
    ∧ (set_address_value a v s).running = s.running
    ∧ (set_address_value 0x10000 v s).mem 0 = toWord v
    ∧ (∀ j, j ≠ 0 → (set_address_value 0x10000 v s).mem j = s.mem j) := by
  have key : ∀ b : Int, set_address_value b v s
      = { s with mem := fun j => if j = b % 65536 then toWord v else s.mem j } := by
    intro b
    have hc : b % 65536 ≥ 0 ∧ b % 65536 < MEMLEN := by unfold MEMLEN; omega
    simp only [set_address_value, toAddress, if_pos hc]
  rw [key a, key 0x10000]
  refine ⟨by simp, fun j hj => by simp [hj], rfl, rfl, rfl, rfl, rfl, by simp, ?_⟩
  intro j hj
  simp [hj]

/-- C14.  For a register index that is an `Address` and a value that is a
`Word`: an index above 7 leaves the whole machine as it is; an index `i ≤ 7`
makes `reg[i]` the value and leaves every other register, memory, `pc`, `ir`,
CC and `running` as they are. -/
theorem set_register_value_checked (i v : Int) (s : CPU)
    (hi0 : 0 ≤ i) (hi1 : i ≤ 65535) (hv0 : -32768 ≤ v) (hv1 : v ≤ 32767) :
    (7 < i → set_register_value i v s = s)
    ∧ (i ≤ 7 →
        (set_register_value i v s).reg i = v
        ∧ (∀ j, j ≠ i → (set_register_value i v s).reg j = s.reg j)
        ∧ (set_register_value i v s).mem = s.mem
        ∧ (set_register_value i v s).pc = s.pc
        ∧ (set_register_value i v s).ir = s.ir
        ∧ (set_register_value i v s).cc = s.cc
        ∧ (set_register_value i v s).running = s.running) := by
  have ha : toAddress i = i := by unfold toAddress; omega
  have hw : toWord v = v := toWord_of_range v hv0 hv1
  constructor
  · intro h
    have : ¬ (i ≥ 0 ∧ i < NREG) := by unfold NREG; omega
    simp only [set_register_value, ha, hw, this, if_false]
  · intro h
    have : i ≥ 0 ∧ i < NREG := by unfold NREG; omega
    have key : set_register_value i v s = reg_write s i v := by
      simp only [set_register_value, ha, hw, if_pos this]
    rw [key]
    unfold reg_write
    exact ⟨by simp, fun j hj => by simp [hj], rfl, rfl, rfl, rfl, rfl⟩

/-- Witness for C14: index 8 is rejected, index 1 sets `R1`. -/
theorem set_register_value_checked_witness :
    set_register_value 8 42 (sample_state 0 1 2) = sample_state 0 1 2
    ∧ (set_register_value 1 42 (sample_state 0 1 2)).reg 1 = 42
    ∧ (set_register_value 1 42 (sample_state 0 1 2)).reg 0 = 1 := by
  have h8 := set_register_value_checked 8 42 (sample_state 0 1 2)
    (by decide) (by decide) (by decide) (by decide)
  have h1 := set_register_value_checked 1 42 (sample_state 0 1 2)
    (by decide) (by decide) (by decide) (by decide)
  exact ⟨h8.1 (by decide), (h1.2 (by decide)).1,
    ((h1.2 (by decide)).2.1 0 (by decide)).trans (by decide)⟩

/-- C15.  A running machine that fetches a TRAP (opcode 15) whose vector is
none of `0x20`, `0x21`, `0x22`, `0x23`, `0x25` ends the cycle with
`running = 0`; registers, memory and CC are unchanged. -/
theorem unsupported_trap_halts (s : CPU) (inp : List Int)
    (hrun : s.running ≠ 0) (hpc0 : 0 ≤ s.pc) (hpc1 : s.pc ≤ 65535)
    (hop : s.mem s.pc % 65536 / 4096 = 15)
    (h20 : s.mem s.pc % 256 ≠ 0x20) (h21 : s.mem s.pc % 256 ≠ 0x21)
    (h22 : s.mem s.pc % 256 ≠ 0x22) (h23 : s.mem s.pc % 256 ≠ 0x23)
    (h25 : s.mem s.pc % 256 ≠ 0x25) :
    ∃ s', one_instruction_cycle s inp = some (s', inp)
      ∧ s'.running = 0 ∧ s'.reg = s.reg ∧ s'.mem = s.mem ∧ s'.cc = s.cc := by
  rw [one_instruction_cycle_running s inp hrun hpc0 hpc1, hop, dispatch_TRAP]
  unfold instr_TRAP
  simp only [field_7_0]
  norm_num at h20 h21 h22 h23 h25
  simp only [h20, h21, h22, h23, h25, if_false]
  exact ⟨_, rfl, rfl, rfl, rfl, rfl⟩

/-- Witness for C15: `TRAP x26` (`0xF026`, the word `-4058`). -/
theorem unsupported_trap_halts_witness :
    (sample_state (-4058) 3 4).running ≠ 0
    ∧ (sample_state (-4058) 3 4).mem (sample_state (-4058) 3 4).pc % 65536 / 4096 = 15
    ∧ (sample_state (-4058) 3 4).mem (sample_state (-4058) 3 4).pc % 256 = 0x26
    ∧ ∃ s', one_instruction_cycle (sample_state (-4058) 3 4) [] = some (s', [])
        ∧ s'.running = 0 ∧ s'.cc = 'Z' ∧ s'.reg 0 = 3 := by
  obtain ⟨s', h1, h2, h3, -, h4⟩ :=
    unsupported_trap_halts (sample_state (-4058) 3 4) [] (by decide) (by decide) (by decide)
      (by decide) (by decide) (by decide) (by decide) (by decide) (by decide)
  exact ⟨by decide, by decide, by decide, s', h1, h2, h4, by rw [h3]; decide⟩

/-! ## Multi-cycle execution -/

/-- Applying cycles to a machine that is not running changes nothing. -/
theorem spec_apply_cycles_halted (k : Nat) (s : CPU) (inp : List Int) (h : s.running = 0) :
    spec_apply_cycles k s inp = some (s, inp) := by
  induction k with
  | zero => rfl
  | succ k ih =>
    have h1 : one_instruction_cycle s inp = some (s, inp) := by
      simp [one_instruction_cycle, h]
    simp only [spec_apply_cycles, h1]
    exact ih

/-- The loop with its test of the running flag before every cycle computes
what the plain repetition of the cycle computes. -/
theorem many_loop_eq (k : Nat) (s : CPU) (inp : List Int) :
    many_loop k s inp = spec_apply_cycles k s inp := by
  induction k generalizing s inp with
  | zero => rfl
  | succ k ih =>
    by_cases h : s.running = 0
    · rw [spec_apply_cycles_halted _ s inp h]
      simp [many_loop, h]
    · simp only [many_loop, h, if_false, spec_apply_cycles]
      cases one_instruction_cycle s inp with
      | none => rfl
      | some r => exact ih r.1 r.2

/-- C16.  For every machine and every count `n > 0`, `many_instruction_cycles`
returns what `min n 100` successive applications of `one_instruction_cycle`
return (no result when one of the cycles has none). -/
theorem many_instruction_cycles_refines (n : Int) (s : CPU) (inp : List Int) (hn : 0 < n) :
    many_instruction_cycles n s inp = spec_apply_cycles (min n 100).toNat s inp := by
  have hmin : (if n > 100 then 100 else n) = min n 100 := by
    split <;> omega
  by_cases h : s.running = 0
  · rw [spec_apply_cycles_halted _ s inp h]
    simp [many_instruction_cycles, h]
  · simp only [many_instruction_cycles, h, if_false, hmin]
    exact many_loop_eq _ s inp

/-- Witness for C16: 250 cycles requested on a machine with an ADD followed by
zero words (`BR` with no condition): 100 cycles are run. -/
theorem many_instruction_cycles_refines_witness :
    many_instruction_cycles 250 (sample_state 0x1021 1 0) []
      = spec_apply_cycles 100 (sample_state 0x1021 1 0) []
    ∧ ((many_instruction_cycles 250 (sample_state 0x1021 1 0) []).map
        fun r => (r.1.pc, r.1.reg 0)) = some (0x3064, 2) :=
  ⟨many_instruction_cycles_refines 250 (sample_state 0x1021 1 0) [] (by decide), by decide⟩

/-! ## Twos-complement fields -/

/-- C19 (as stated, refuted).  `bit_select_s(50, 4, 0)` is not `-9`. -/
theorem bit_select_s_50_not_minus_9 : bit_select_s 50 4 0 ≠ -9 := by
  decide

/-- C19 (amended).  `bit_select_s(0b0110010, 4, 0) = -14`: the 5-bit field
`10010` of the word 50 is 18, and `18 - 32 = -14`. -/
theorem bit_select_s_50_eq : bit_select_s 0b0110010 4 0 = -14
    ∧ bit_select_us 0b0110010 4 0 = 18 := by
  decide

/-- C20.  For every word `w` and every `left ≤ 14`, `bit_select_s(w, left, 0)`
is the two's-complement value of the low `left + 1` bits of `w`: with
`u = w mod 2^(left+1)`, it is `u` when `u < 2^left` and `u - 2^(left+1)`
otherwise; in particular for the fields (4,0), (5,0), (8,0) and (10,0) of the
decoder. -/
theorem bit_select_s_twos_complement (w : Int) (left : Nat) (hl : left ≤ 14) :
    (w % 2 ^ (left + 1) < 2 ^ left → bit_select_s w left 0 = w % 2 ^ (left + 1))
    ∧ (¬ w % 2 ^ (left + 1) < 2 ^ left →
        bit_select_s w left 0 = w % 2 ^ (left + 1) - 2 ^ (left + 1))
    ∧ bit_select_s w 4 0 = (if w % 32 < 16 then w % 32 else w % 32 - 32)
    ∧ bit_select_s w 5 0 = (if w % 64 < 32 then w % 64 else w % 64 - 64)
    ∧ bit_select_s w 8 0 = (if w % 512 < 256 then w % 512 else w % 512 - 512)
    ∧ bit_select_s w 10 0 = (if w % 2048 < 1024 then w % 2048 else w % 2048 - 2048) := by
  refine ⟨fun h => ?_, fun h => ?_, imm5_field w, offset6_field w, pcoffset9_field w,
    pcoffset11_field w⟩
  · rw [bit_select_s_low w left hl, if_pos h]
  · rw [bit_select_s_low w left hl, if_neg h]

/-- Witness for C20: the negative word `-4059` (`0xF025`) and the 9-bit field,
whose value is `0x25 = 37`, and the word `0x01FF`, whose 9-bit field is `-1`. -/
theorem bit_select_s_twos_complement_witness :
    bit_select_s (-4059) 8 0 = 37 ∧ bit_select_s 0x01FF 8 0 = -1 :=
  ⟨((bit_select_s_twos_complement (-4059) 8 (by decide)).1 (by decide)).trans (by decide),
   ((bit_select_s_twos_complement 0x01FF 8 (by decide)).2.1 (by decide)).trans (by decide)⟩

/-! ## What the handlers leave alone -/

theorem mem_write_frame (c c' : CPU) (i v : Int) (h : mem_write c i v = some c') :
    c'.reg = c.reg ∧ c'.pc = c.pc ∧ c'.running = c.running ∧ c'.ir = c.ir ∧ c'.cc = c.cc := by
  unfold mem_write at h
  split_ifs at h
  cases h
  exact ⟨rfl, rfl, rfl, rfl, rfl⟩

theorem mem_write_in_range (c : CPU) (i v : Int) (h0 : 0 ≤ i) (h1 : i ≤ 65535) :
    ∃ c', mem_write c i v = some c' := by
  have : 0 ≤ i ∧ i < MEMLEN := ⟨h0, by unfold MEMLEN; omega⟩
  unfold mem_write
  rw [if_pos this]
  exact ⟨_, rfl⟩

theorem map_pair_some (o : Option CPU) (inp inp' : List Int) (c' : CPU)
    (h : (o.map fun c => (c, inp)) = some (c', inp')) : o = some c' := by
  cases o with
  | none => exact absurd h (by simp)
  | some x =>
    simp only [Option.map_some', Option.some.injEq, Prod.mk.injEq] at h
    rw [h.1]

theorem some_pair_inj (x c' : CPU) (inp inp' : List Int)
    (h : some (x, inp) = some (c', inp')) : c' = x := by
  simp only [Option.some.injEq, Prod.mk.injEq] at h
  exact h.1.symm

theorem dispatch_LD (c : CPU) (inp : List Int) :
    dispatch 2 c inp = (instr_LD c).map fun x => (x, inp) := by
  simp [dispatch]

theorem dispatch_ST (c : CPU) (inp : List Int) :
    dispatch 3 c inp = (instr_ST c).map fun x => (x, inp) := by
  simp [dispatch]

theorem dispatch_AND (c : CPU) (inp : List Int) :
    dispatch 5 c inp = some (instr_AND c, inp) := by
  simp [dispatch]

theorem dispatch_LDR (c : CPU) (inp : List Int) :
    dispatch 6 c inp = (instr_LDR c).map fun x => (x, inp) := by
  simp [dispatch]

theorem dispatch_STR (c : CPU) (inp : List Int) :
    dispatch 7 c inp = (instr_STR c).map fun x => (x, inp) := by
  simp [dispatch]

theorem dispatch_RTI (c : CPU) (inp : List Int) :
    dispatch 8 c inp = some (instr_RTI c, inp) := by
  simp [dispatch]

theorem dispatch_NOT (c : CPU) (inp : List Int) :
    dispatch 9 c inp = some (instr_NOT c, inp) := by
  simp [dispatch]

theorem dispatch_LDI (c : CPU) (inp : List Int) :
    dispatch 10 c inp = (instr_LDI c).map fun x => (x, inp) := by
  simp [dispatch]

theorem dispatch_STI (c : CPU) (inp : List Int) :
    dispatch 11 c inp = (instr_STI c).map fun x => (x, inp) := by
  simp [dispatch]

theorem dispatch_JMP (c : CPU) (inp : List Int) :
    dispatch 12 c inp = some (instr_JMP c, inp) := by
  simp [dispatch]

theorem dispatch_LEA (c : CPU) (inp : List Int) :
    dispatch 14 c inp = some (instr_LEA c, inp) := by
  simp [dispatch]

theorem instr_STI_frame (c c' : CPU) (h : instr_STI c = some c') :
    c'.reg = c.reg ∧ c'.pc = c.pc ∧ c'.running = c.running ∧ c'.ir = c.ir ∧ c'.cc = c.cc := by
  unfold instr_STI at h
  simp only at h
  split at h
  · exact absurd h (by simp)
  · exact mem_write_frame _ _ _ _ h

theorem instr_BR_cc (c : CPU) : (instr_BR c).cc = c.cc := by
  rw [instr_BR_eq]
  split_ifs <;> rfl

theorem instr_JSR_cc (c : CPU) : (instr_JSR c).cc = c.cc := by
  unfold instr_JSR
  simp only
  split_ifs <;> rfl

/-- The condition code across a control or store instruction whose cycle
completes.  A running machine that fetches BR (0), ST (3), JSR/JSRR (4),
STR (7), RTI (8), STI (11), JMP (12) or the reserved opcode 13: BR, JSR/JSRR,
RTI, JMP and opcode 13 always complete, ST, STR and STI complete when the
cells they index are inside the array, and whenever the cycle completes the
condition code is the one before the cycle.  A store that indexes outside the
array has no defined result. -/
theorem cc_kept_by_control_and_store (s : CPU) (inp : List Int)
    (hrun : s.running ≠ 0) (hpc0 : 0 ≤ s.pc) (hpc1 : s.pc ≤ 65535)
    (hop : s.mem s.pc % 65536 / 4096 = 0 ∨ s.mem s.pc % 65536 / 4096 = 3
      ∨ s.mem s.pc % 65536 / 4096 = 4 ∨ s.mem s.pc % 65536 / 4096 = 7
      ∨ s.mem s.pc % 65536 / 4096 = 8 ∨ s.mem s.pc % 65536 / 4096 = 11
      ∨ s.mem s.pc % 65536 / 4096 = 12 ∨ s.mem s.pc % 65536 / 4096 = 13) :
    ((s.mem s.pc % 65536 / 4096 = 0 ∨ s.mem s.pc % 65536 / 4096 = 4
        ∨ s.mem s.pc % 65536 / 4096 = 8 ∨ s.mem s.pc % 65536 / 4096 = 12
        ∨ s.mem s.pc % 65536 / 4096 = 13) →
      ∃ s', one_instruction_cycle s inp = some (s', inp))
    ∧ (s.mem s.pc % 65536 / 4096 = 3 →
        0 ≤ (s.pc + 1) % 65536
          + (if s.mem s.pc % 512 < 256 then s.mem s.pc % 512 else s.mem s.pc % 512 - 512) →
        (s.pc + 1) % 65536
          + (if s.mem s.pc % 512 < 256 then s.mem s.pc % 512 else s.mem s.pc % 512 - 512)
          ≤ 65535 →
      ∃ s', one_instruction_cycle s inp = some (s', inp))
    ∧ (s.mem s.pc % 65536 / 4096 = 7 →
        0 ≤ s.mem s.pc % 65536 / 64 % 8
          + (if s.mem s.pc % 64 < 32 then s.mem s.pc % 64 else s.mem s.pc % 64 - 64) →
      ∃ s', one_instruction_cycle s inp = some (s', inp))
    ∧ (s.mem s.pc % 65536 / 4096 = 11 →
        0 ≤ (s.pc + 1) % 65536
          + (if s.mem s.pc % 512 < 256 then s.mem s.pc % 512 else s.mem s.pc % 512 - 512) →
        (s.pc + 1) % 65536
          + (if s.mem s.pc % 512 < 256 then s.mem s.pc % 512 else s.mem s.pc % 512 - 512)
          ≤ 65535 →
        0 ≤ s.mem ((s.pc + 1) % 65536
          + (if s.mem s.pc % 512 < 256 then s.mem s.pc % 512 else s.mem s.pc % 512 - 512)) →
        s.mem ((s.pc + 1) % 65536
          + (if s.mem s.pc % 512 < 256 then s.mem s.pc % 512 else s.mem s.pc % 512 - 512))
          ≤ 65535 →
      ∃ s', one_instruction_cycle s inp = some (s', inp))
    ∧ ∀ s' inp', one_instruction_cycle s inp = some (s', inp') → s'.cc = s.cc := by
  have hcyc := one_instruction_cycle_running s inp hrun hpc0 hpc1
  simp only [toAddress] at hcyc
  rw [hcyc]
  refine ⟨?_, ?_, ?_, ?_, ?_⟩
  · rintro (h | h | h | h | h) <;> rw [h]
    · exact ⟨_, dispatch_BR _ _⟩
    · exact ⟨_, dispatch_JSR _ _⟩
    · exact ⟨_, dispatch_RTI _ _⟩
    · exact ⟨_, dispatch_JMP _ _⟩
    · exact ⟨_, dispatch_err _ _⟩
  · intro h h0 h1
    rw [h, dispatch_ST]
    unfold instr_ST
    simp only [pcoffset9_field]
    obtain ⟨c', hc'⟩ := mem_write_in_range
      { s with ir := s.mem s.pc, pc := (s.pc + 1) % 65536 } _
      (s.reg (bit_select_us (s.mem s.pc) 11 9)) h0 h1
    rw [hc']
    exact ⟨c', rfl⟩
  · intro h h0
    rw [h, dispatch_STR]
    unfold instr_STR
    simp only [offset6_field, field_8_6]
    have h1 : s.mem s.pc % 65536 / 64 % 8
        + (if s.mem s.pc % 64 < 32 then s.mem s.pc % 64 else s.mem s.pc % 64 - 64) ≤ 65535 := by
      split <;> omega
    obtain ⟨c', hc'⟩ := mem_write_in_range
      { s with ir := s.mem s.pc, pc := (s.pc + 1) % 65536 } _
      (s.reg (bit_select_us (s.mem s.pc) 11 9)) h0 h1
    rw [hc']
    exact ⟨c', rfl⟩
  · intro h h0 h1 h2 h3
    rw [h, dispatch_STI]
    unfold instr_STI
    simp only [pcoffset9_field]
    rw [add_comm] at h0 h1 h2 h3
    rw [mem_read_in_range _ _ h0 h1]
    simp only
    obtain ⟨c', hc'⟩ := mem_write_in_range
      { s with ir := s.mem s.pc, pc := (s.pc + 1) % 65536 } _
      (s.reg (bit_select_us (s.mem s.pc) 11 9)) h2 h3
    rw [hc']
    exact ⟨c', rfl⟩
  · intro s' inp' heq
    rcases hop with h | h | h | h | h | h | h | h <;> rw [h] at heq
    · rw [dispatch_BR] at heq
      rw [some_pair_inj _ _ _ _ heq]
      exact instr_BR_cc _
    · rw [dispatch_ST] at heq
      exact (mem_write_frame _ _ _ _ (map_pair_some _ _ _ _ heq)).2.2.2.2
    · rw [dispatch_JSR] at heq
      rw [some_pair_inj _ _ _ _ heq]
      exact instr_JSR_cc _
    · rw [dispatch_STR] at heq
      exact (mem_write_frame _ _ _ _ (map_pair_some _ _ _ _ heq)).2.2.2.2
    · rw [dispatch_RTI] at heq
      rw [some_pair_inj _ _ _ _ heq]
      rfl
    · rw [dispatch_STI] at heq
      exact (instr_STI_frame _ _ (map_pair_some _ _ _ _ heq)).2.2.2.2
    · rw [dispatch_JMP] at heq
      rw [some_pair_inj _ _ _ _ heq]
      rfl
    · rw [dispatch_err] at heq
      rw [some_pair_inj _ _ _ _ heq]
      rfl

/-- Two completing instances: `ST R0, #1` (`0x3001`) with `R0 = 9` stores 9
into cell `0x3002` and leaves `CC = 'Z'`; `JMP R1` (`0xC040`, the word
`-16320`) leaves `CC = 'Z'`. -/
theorem cc_kept_by_control_and_store_witness :
    (∃ s', one_instruction_cycle (sample_state 0x3001 9 0) [] = some (s', [])
      ∧ s'.cc = 'Z' ∧ s'.mem 0x3002 = 9)
    ∧ (∃ s', one_instruction_cycle (sample_state (-16320) 0 0x4000) [] = some (s', [])
      ∧ s'.cc = 'Z' ∧ s'.pc = 0x4000) := by
  have hS := cc_kept_by_control_and_store (sample_state 0x3001 9 0) []
    (by decide) (by decide) (by decide) (by decide)
  have hJ := cc_kept_by_control_and_store (sample_state (-16320) 0 0x4000) []
    (by decide) (by decide) (by decide) (by decide)
  constructor
  · obtain ⟨s', hs⟩ := hS.2.1 (by decide) (by decide) (by decide)
    have hm : ((one_instruction_cycle (sample_state 0x3001 9 0) []).map
        fun r => r.1.mem 0x3002) = some 9 := by decide
    rw [hs] at hm
    exact ⟨s', hs, hS.2.2.2.2 s' [] hs, by simpa using hm⟩
  · obtain ⟨s', hs⟩ := hJ.1 (by decide)
    have hp : ((one_instruction_cycle (sample_state (-16320) 0 0x4000) []).map
        fun r => r.1.pc) = some 0x4000 := by decide
    rw [hs] at hp
    exact ⟨s', hs, hJ.2.2.2.2 s' [] hs, by simpa using hp⟩

/-! ## The opcode field and JSRR -/

/-- C21.  For every instruction word, negative ones included,
`bit_select_us(ir, 15, 12)` is `(ir mod 65536) / 4096` and lies in `0 .. 15`
(15 for `0xF025`, 8 for `0x8000`), so the `switch` of `one_instruction_cycle`
enters one of its sixteen cases and never its default branch. -/
theorem opcode_always_dispatched (ir : Int) (c : CPU) (inp : List Int) :
    bit_select_us ir 15 12 = ir % 65536 / 4096
    ∧ 0 ≤ bit_select_us ir 15 12 ∧ bit_select_us ir 15 12 ≤ 15
    ∧ bit_select_us (-4059) 15 12 = 15 ∧ bit_select_us (-32768) 15 12 = 8
    ∧ ¬ (bit_select_us ir 15 12 ≠ 0 ∧ bit_select_us ir 15 12 ≠ 1
        ∧ bit_select_us ir 15 12 ≠ 2 ∧ bit_select_us ir 15 12 ≠ 3
        ∧ bit_select_us ir 15 12 ≠ 4 ∧ bit_select_us ir 15 12 ≠ 5
        ∧ bit_select_us ir 15 12 ≠ 6 ∧ bit_select_us ir 15 12 ≠ 7
        ∧ bit_select_us ir 15 12 ≠ 8 ∧ bit_select_us ir 15 12 ≠ 9
        ∧ bit_select_us ir 15 12 ≠ 10 ∧ bit_select_us ir 15 12 ≠ 11
        ∧ bit_select_us ir 15 12 ≠ 12 ∧ bit_select_us ir 15 12 ≠ 13
        ∧ bit_select_us ir 15 12 ≠ 14 ∧ bit_select_us ir 15 12 ≠ 15)
    ∧ (dispatch (bit_select_us ir 15 12) c inp = some (instr_BR c, inp)
      ∨ dispatch (bit_select_us ir 15 12) c inp = some (instr_ADD c, inp)
      ∨ dispatch (bit_select_us ir 15 12) c inp = ((instr_LD c).map fun x => (x, inp))
      ∨ dispatch (bit_select_us ir 15 12) c inp = ((instr_ST c).map fun x => (x, inp))
      ∨ dispatch (bit_select_us ir 15 12) c inp = some (instr_JSR c, inp)
      ∨ dispatch (bit_select_us ir 15 12) c inp = some (instr_AND c, inp)
      ∨ dispatch (bit_select_us ir 15 12) c inp = ((instr_LDR c).map fun x => (x, inp))
      ∨ dispatch (bit_select_us ir 15 12) c inp = ((instr_STR c).map fun x => (x, inp))
      ∨ dispatch (bit_select_us ir 15 12) c inp = some (instr_RTI c, inp)
      ∨ dispatch (bit_select_us ir 15 12) c inp = some (instr_NOT c, inp)
      ∨ dispatch (bit_select_us ir 15 12) c inp = ((instr_LDI c).map fun x => (x, inp))
      ∨ dispatch (bit_select_us ir 15 12) c inp = ((instr_STI c).map fun x => (x, inp))
      ∨ dispatch (bit_select_us ir 15 12) c inp = some (instr_JMP c, inp)
      ∨ dispatch (bit_select_us ir 15 12) c inp = some (instr_err c, inp)
      ∨ dispatch (bit_select_us ir 15 12) c inp = some (instr_LEA c, inp)
      ∨ dispatch (bit_select_us ir 15 12) c inp = instr_TRAP c inp) := by
  have hop := opcode_field ir
  have hcases : ir % 65536 / 4096 = 0 ∨ ir % 65536 / 4096 = 1 ∨ ir % 65536 / 4096 = 2
      ∨ ir % 65536 / 4096 = 3 ∨ ir % 65536 / 4096 = 4 ∨ ir % 65536 / 4096 = 5
      ∨ ir % 65536 / 4096 = 6 ∨ ir % 65536 / 4096 = 7 ∨ ir % 65536 / 4096 = 8
      ∨ ir % 65536 / 4096 = 9 ∨ ir % 65536 / 4096 = 10 ∨ ir % 65536 / 4096 = 11
      ∨ ir % 65536 / 4096 = 12 ∨ ir % 65536 / 4096 = 13 ∨ ir % 65536 / 4096 = 14
      ∨ ir % 65536 / 4096 = 15 := by omega
  rw [hop]
  refine ⟨rfl, by omega, by omega, by decide, by decide, by omega, ?_⟩
  rcases hcases with h | h | h | h | h | h | h | h | h | h | h | h | h | h | h | h <;> rw [h]
  · exact Or.inl (dispatch_BR c inp)
  · exact Or.inr (Or.inl (dispatch_ADD c inp))
  · exact Or.inr (Or.inr (Or.inl (dispatch_LD c inp)))
  · exact Or.inr (Or.inr (Or.inr (Or.inl (dispatch_ST c inp))))
  · exact Or.inr (Or.inr (Or.inr (Or.inr (Or.inl (dispatch_JSR c inp)))))
  · exact Or.inr (Or.inr (Or.inr (Or.inr (Or.inr (Or.inl (dispatch_AND c inp))))))
  · exact Or.inr (Or.inr (Or.inr (Or.inr (Or.inr (Or.inr (Or.inl (dispatch_LDR c inp)))))))
  · exact Or.inr (Or.inr (Or.inr (Or.inr (Or.inr (Or.inr (Or.inr
      (Or.inl (dispatch_STR c inp))))))))
  · exact Or.inr (Or.inr (Or.inr (Or.inr (Or.inr (Or.inr (Or.inr (Or.inr
      (Or.inl (dispatch_RTI c inp)))))))))
  · exact Or.inr (Or.inr (Or.inr (Or.inr (Or.inr (Or.inr (Or.inr (Or.inr (Or.inr
      (Or.inl (dispatch_NOT c inp))))))))))
  · exact Or.inr (Or.inr (Or.inr (Or.inr (Or.inr (Or.inr (Or.inr (Or.inr (Or.inr (Or.inr
      (Or.inl (dispatch_LDI c inp)))))))))))
  · exact Or.inr (Or.inr (Or.inr (Or.inr (Or.inr (Or.inr (Or.inr (Or.inr (Or.inr (Or.inr
      (Or.inr (Or.inl (dispatch_STI c inp))))))))))))
  · exact Or.inr (Or.inr (Or.inr (Or.inr (Or.inr (Or.inr (Or.inr (Or.inr (Or.inr (Or.inr
      (Or.inr (Or.inr (Or.inl (dispatch_JMP c inp)))))))))))))
  · exact Or.inr (Or.inr (Or.inr (Or.inr (Or.inr (Or.inr (Or.inr (Or.inr (Or.inr (Or.inr
      (Or.inr (Or.inr (Or.inr (Or.inl (dispatch_err c inp))))))))))))))
  · exact Or.inr (Or.inr (Or.inr (Or.inr (Or.inr (Or.inr (Or.inr (Or.inr (Or.inr (Or.inr
      (Or.inr (Or.inr (Or.inr (Or.inr (Or.inl (dispatch_LEA c inp)))))))))))))))
  · exact Or.inr (Or.inr (Or.inr (Or.inr (Or.inr (Or.inr (Or.inr (Or.inr (Or.inr (Or.inr
      (Or.inr (Or.inr (Or.inr (Or.inr (Or.inr (dispatch_TRAP c inp)))))))))))))))

/-- The state `instr_JSR` leaves in its JSRR mode (bit 11 clear): `R7` is
written first, and the register read for the jump sees that write. -/
theorem instr_JSRR_eq (c : CPU) (hmode : c.ir % 65536 / 2048 % 2 = 0) :
    instr_JSR c =
      { reg_write c 7 (toWord c.pc) with
        pc := (if c.ir % 65536 / 64 % 8 = 7 then toWord c.pc
               else c.reg (c.ir % 65536 / 64 % 8)) % 65536 } := by
  have h01 : ¬ ((0 : Int) = 1) := by decide
  unfold instr_JSR
  simp only [field_11_11, hmode, h01, if_false, field_8_6, reg_write, toAddress]

/-- C22.  A running machine that fetches a JSRR (opcode 4, bit 11 clear): `R7`
receives the post-fetch `pc` before the base register is read.  With base
field 7 the new `pc` is therefore the post-fetch `pc`, and differs from the
16-bit value `R7` held before whenever that value was not the post-fetch `pc`;
with a base field in `0 .. 6` the new `pc` is the 16-bit value of `reg[base]`.
`R0`-`R6`, memory and CC are unchanged. -/
theorem jsrr_cycle (s : CPU) (inp : List Int)
    (hrun : s.running ≠ 0) (hpc0 : 0 ≤ s.pc) (hpc1 : s.pc ≤ 65535)
    (hop : s.mem s.pc % 65536 / 4096 = 4) (hmode : s.mem s.pc % 65536 / 2048 % 2 = 0) :
    ∃ s', one_instruction_cycle s inp = some (s', inp)
      ∧ s'.reg 7 = toWord ((s.pc + 1) % 65536)
      ∧ s'.reg 7 % 65536 = (s.pc + 1) % 65536
      ∧ (s.mem s.pc % 65536 / 64 % 8 = 7 → s'.pc = (s.pc + 1) % 65536)
      ∧ (s.mem s.pc % 65536 / 64 % 8 = 7 → s.reg 7 % 65536 ≠ (s.pc + 1) % 65536 →
          s'.pc ≠ s.reg 7 % 65536)
      ∧ (s.mem s.pc % 65536 / 64 % 8 ≠ 7 →
          s'.pc = s.reg (s.mem s.pc % 65536 / 64 % 8) % 65536)
      ∧ (∀ i, i ≠ 7 → s'.reg i = s.reg i) ∧ s'.mem = s.mem ∧ s'.cc = s.cc := by
  rw [one_instruction_cycle_running s inp hrun hpc0 hpc1, hop, dispatch_JSR,
    instr_JSRR_eq _ hmode]
  refine ⟨_, rfl, ?_⟩
  simp only [reg_write, toAddress]
  have hw : toWord ((s.pc + 1) % 65536) % 65536 = (s.pc + 1) % 65536 := by
    unfold toWord; omega
  refine ⟨by simp, ?_, ?_, ?_, ?_, ?_, trivial, trivial⟩
  · simp only [if_true]
    exact hw
  · intro h7
    rw [if_pos h7]
    exact hw
  · intro h7 hne
    rw [if_pos h7, hw]
    exact fun h => hne h.symm
  · intro h7
    rw [if_neg h7]
  · intro i hi
    simp [hi]

/-- Witness for C22: `JSRR R7` (`0x41C0`) at `0x3000` with `R7 = 0` jumps to
`0x3001`, not to 0; `JSRR R1` (`0x4040`) with `R1 = 0x5000` jumps to `0x5000`
and leaves `R7 = 0x3001`. -/
theorem jsrr_cycle_witness :
    (∃ s', one_instruction_cycle (sample_state 0x41C0 0 0) [] = some (s', [])
      ∧ s'.pc = 0x3001 ∧ s'.pc ≠ (sample_state 0x41C0 0 0).reg 7 % 65536)
    ∧ (∃ s', one_instruction_cycle (sample_state 0x4040 0 0x5000) [] = some (s', [])
      ∧ s'.pc = 0x5000 ∧ s'.reg 7 = 0x3001) := by
  constructor
  · obtain ⟨s', h1, -, -, h2, h3, -⟩ :=
      jsrr_cycle (sample_state 0x41C0 0 0) [] (by decide) (by decide) (by decide) (by decide)
        (by decide)
    exact ⟨s', h1, (h2 (by decide)).trans (by decide), h3 (by decide) (by decide)⟩
  · obtain ⟨s', h1, h2, -, -, -, h3, -⟩ :=
      jsrr_cycle (sample_state 0x4040 0 0x5000) [] (by decide) (by decide) (by decide)
        (by decide) (by decide)
    exact ⟨s', h1, (h3 (by decide)).trans (by decide), h2.trans (by decide)⟩

/-! ## A store past the end of the array -/

/-- C18 (defect in the store handlers).  `ST R0, #14` (`0x300E`) fetched at
`0xFFFE` by a running machine with `R0 = 78` and `CC = 'Z'`: the index
`cpu->pc + pcoffset` is `0xFFFF + 14 = 65549`, not the wrapped address
`0x000D`; it lies outside the array, so the store has no defined result and
the cycle does not return the machine with its condition code kept. -/
theorem store_index_past_array :
    (near_top_state 0x300E 78).running ≠ 0
    ∧ (near_top_state 0x300E 78).cc = 'Z'
    ∧ (near_top_state 0x300E 78).mem (near_top_state 0x300E 78).pc % 65536 / 4096 = 3
    ∧ ((near_top_state 0x300E 78).pc + 1) % 65536 + bit_select_s 0x300E 8 0 = 65549
    ∧ (mem_write (near_top_state 0x300E 78) 65549 78).isNone = true
    ∧ (one_instruction_cycle (near_top_state 0x300E 78) []).isNone = true
    ∧ (mem_write (near_top_state 0x300E 78) (65549 % 65536) 78).isSome = true := by
  decide

end LC3
